import Mathlib

/-!
Verification of the `create-manifests` reconciliation scripts.

The definitions below are shallow embeddings of `src/episode_service.py`
(the per-episode reconciliation pipeline `process_episodes`, the key
splitter `split_key_in_df`, the actual-state scanner
`s3_find_episode_jpg_keys_df` and the desired-state provider
`find_google_episode_keys_df`).  Pandas dataframes are embedded as lists
of per-row structures; nullable (NaN/None) columns become `Option`;
randomness (`random.choices`, `DataFrame.sample`) becomes explicit
parameters.  The object store itself (`s3_copy_files`, `s3_delete_files`,
`s3_ls_recursive` are imported by `episode_service.py` but their
definitions are not part of the sources) is modelled from the spec.
-/

set_option autoImplicit false

namespace CreateManifests

/-! ### Character-level utilities

`split_key_in_df` splits an S3 key on the pandas regex `/|\.` and an
`img_frame` on `_`.  We model both with a generic splitter over the
character list of a `String`, keeping empty segments exactly as
`pandas.Series.str.split` does. -/

/-- Split a character list at every character satisfying `p`,
keeping empty segments (the semantics of `str.split` with a regex of
single separator characters). -/
def splitOnPred (p : Char → Bool) : List Char → List (List Char)
  | [] => [[]]
  | c :: rest =>
    if p c then [] :: splitOnPred p rest
    else
      match splitOnPred p rest with
      | [] => [[c]]
      | s :: ss => (c :: s) :: ss

theorem splitOnPred_ne_nil (p : Char → Bool) (cs : List Char) :
    splitOnPred p cs ≠ [] := by
  cases cs with
  | nil => simp [splitOnPred]
  | cons c rest =>
    simp only [splitOnPred]
    by_cases h : p c
    · simp [h]
    · simp only [h, if_false]
      cases splitOnPred p rest with
      | nil => simp
      | cons s ss => simp

/-- A "clean" character is neither a key separator nor relevant to the
splits we model: below we only need freedom from `/` and `.`. -/
def notSep (c : Char) : Bool := !(c = '/' || c = '.')

/-- Separator predicate of the pandas regex split `'/|\.'` used by
`split_key_in_df`. -/
def isKeySep (c : Char) : Bool := c = '/' || c = '.'

/-- Separator predicate for the `img_frame.str.split('_')` split. -/
def isUnderscore (c : Char) : Bool := c = '_'

theorem splitOnPred_append_of_all_not (p : Char → Bool) (l r : List Char)
    (h : ∀ c ∈ l, p c = false) :
    splitOnPred p (l ++ r) =
      match splitOnPred p r with
      | [] => [l]
      | s :: ss => (l ++ s) :: ss := by
  induction l with
  | nil =>
    simp only [List.nil_append]
    cases hr : splitOnPred p r with
    | nil => exact absurd hr (splitOnPred_ne_nil p r)
    | cons s ss => simp
  | cons c l ih =>
    have hc : p c = false := h c (List.mem_cons_self c l)
    have hl : ∀ x ∈ l, p x = false := fun x hx => h x (List.mem_cons_of_mem c hx)
    have ihl := ih hl
    cases hr : splitOnPred p r with
    | nil => exact absurd hr (splitOnPred_ne_nil p r)
    | cons s ss =>
      rw [hr] at ihl
      simp [splitOnPred, hc, ihl]

theorem splitOnPred_sep_cons (p : Char → Bool) (c : Char) (rest : List Char)
    (hc : p c = true) :
    splitOnPred p (c :: rest) = [] :: splitOnPred p rest := by
  simp [splitOnPred, hc]

/-- Splitting `l ++ sep :: r` where `l` is separator-free peels off `l`
as the first segment. -/
theorem splitOnPred_append_sep (p : Char → Bool) (l r : List Char) (c : Char)
    (h : ∀ x ∈ l, p x = false) (hc : p c = true) :
    splitOnPred p (l ++ c :: r) = l :: splitOnPred p r := by
  rw [splitOnPred_append_of_all_not p l (c :: r) h]
  simp [splitOnPred, hc]

theorem splitOnPred_all_not (p : Char → Bool) (l : List Char)
    (h : ∀ c ∈ l, p c = false) :
    splitOnPred p l = [l] := by
  have h2 := splitOnPred_append_of_all_not p l [] h
  rw [List.append_nil] at h2
  simpa [splitOnPred] using h2

/-! ### Frame key model

`process_episodes` renders storage keys with the inline expression
`"tuttle_twins/ML/" + ml_key + '/' + img_frame + ".jpg"`
(episode_service.py lines 317, 352, 356, 436), where `ml_key` is
`ml_folder + '/' + ml_image_class`.  `split_key_in_df`
(lines 161-200) parses a key back by splitting on the regex `/|\.`
into columns `[tt, ml, ml_folder, ml_image_class, img_frame, ext, n1, n2]`
and splitting `img_frame` on `_` into
`[tt, season_code, episode_code, remainder]`. -/

/-- The storage key rendered for a frame placed at `ml_key`
(`"tuttle_twins/ML/" + ml_key + '/' + img_frame + ".jpg"`). -/
def render_key (ml_key img_frame : String) : String :=
  "tuttle_twins/ML/" ++ ml_key ++ "/" ++ img_frame ++ ".jpg"

/-- `episode_id` reconstructed from an `img_frame` value by
`split_key_in_df`: split on `_`, take `season_code` (part 1) and
`episode_code` (part 2); `None` when either part is missing. -/
def frame_episode_id (img_frame : String) : Option String :=
  let parts := splitOnPred isUnderscore img_frame.data
  match parts[1]?, parts[2]? with
  | some s, some e => some (s.asString ++ e.asString)
  | _, _ => none

/-- One parsed row of `split_key_in_df`: the columns it adds to the
scanned dataframe.  A missing split segment is pandas `NaN`, embedded
as `none`. -/
structure KeyRow where
  ml_folder : Option String
  ml_image_class : Option String
  img_frame : Option String
  ml_key : Option String
  episode_id : Option String
deriving Repr, DecidableEq

/-- Per-row embedding of `split_key_in_df` (lines 161-200): split the key
on `/|\.`; name the segments `[tt, ml, ml_folder, ml_image_class,
img_frame, ext, n1, n2]` (more than 8 segments makes the
`rename(columns = lambda x: key_cols[x])` raise, embedded as `none`);
`ml_key` coalesces `ml_folder + '/' + ml_image_class` when both are
present; `episode_id` coalesces `season_code + episode_code` from the
`_`-split of `img_frame`. -/
def split_key (key : String) : Option KeyRow :=
  let segs := splitOnPred isKeySep key.data
  if segs.length > 8 then none
  else
    let folder := (segs[2]?).map List.asString
    let cls := (segs[3]?).map List.asString
    let frame := (segs[4]?).map List.asString
    let mlk : Option String :=
      match folder, cls with
      | some f, some c => some (f ++ "/" ++ c)
      | _, _ => none
    let eid : Option String :=
      match frame with
      | some fr => frame_episode_id fr
      | none => none
    some ⟨folder, cls, frame, mlk, eid⟩

/-- A string free of the key separators `/` and `.` (so it occupies
exactly one segment of a rendered key). -/
def sepFree (s : String) : Bool := s.data.all fun c => !(isKeySep c)

theorem sepFree_chars {s : String} (h : sepFree s = true) :
    ∀ c ∈ s.data, isKeySep c = false := by
  intro c hc
  have := (List.all_eq_true.mp h) c hc
  simpa using this

/-- The characters of the fixed leading segment `tuttle_twins`. -/
def twChars : List Char := "tuttle_twins".data

/-- The characters of the fixed second segment `ML`. -/
def mlChars : List Char := "ML".data

/-- The characters of the extension segment `jpg`. -/
def jpgChars : List Char := "jpg".data

theorem renderKeyData (m fr : String) :
    (render_key m fr).data =
      ((("tuttle_twins/ML/".data ++ m.data) ++ ['/']) ++ fr.data) ++
        ('.' :: jpgChars) := rfl

/-- The character-level decomposition of a rendered key whose folder,
class and frame are separator-free. -/
theorem splitOnPred_render_key (folder cls frame : String)
    (hf : sepFree folder = true) (hc : sepFree cls = true)
    (hfr : sepFree frame = true) :
    splitOnPred isKeySep (render_key (folder ++ "/" ++ cls) frame).data =
      [twChars, mlChars, folder.data, cls.data, frame.data, jpgChars] := by
  have htw : ∀ x ∈ twChars, isKeySep x = false := by decide
  have hml : ∀ x ∈ mlChars, isKeySep x = false := by decide
  have hjpg : ∀ x ∈ jpgChars, isKeySep x = false := by decide
  have e : (render_key (folder ++ "/" ++ cls) frame).data =
      twChars ++ '/' :: (mlChars ++ '/' :: (folder.data ++ '/' ::
        (cls.data ++ '/' :: (frame.data ++ '.' :: jpgChars)))) := by
    rw [renderKeyData]
    rw [show "tuttle_twins/ML/".data = twChars ++ '/' :: (mlChars ++ ['/']) from rfl]
    rw [show (folder ++ "/" ++ cls).data = (folder.data ++ ['/']) ++ cls.data from rfl]
    simp only [List.append_assoc, List.cons_append, List.singleton_append,
      List.nil_append]
  rw [e]
  rw [splitOnPred_append_sep isKeySep _ _ '/' htw (by decide)]
  rw [splitOnPred_append_sep isKeySep _ _ '/' hml (by decide)]
  rw [splitOnPred_append_sep isKeySep _ _ '/' (sepFree_chars hf) (by decide)]
  rw [splitOnPred_append_sep isKeySep _ _ '/' (sepFree_chars hc) (by decide)]
  rw [splitOnPred_append_sep isKeySep _ _ '.' (sepFree_chars hfr) (by decide)]
  rw [splitOnPred_all_not isKeySep _ hjpg]

/-- Parsing a rendered key recovers the folder, class and frame exactly
(`split_key` after `render_key`). -/
theorem split_key_render_key (folder cls frame : String)
    (hf : sepFree folder = true) (hc : sepFree cls = true)
    (hfr : sepFree frame = true) :
    split_key (render_key (folder ++ "/" ++ cls) frame) =
      some ⟨some folder, some cls, some frame, some (folder ++ "/" ++ cls),
        frame_episode_id frame⟩ := by
  have hsegs := splitOnPred_render_key folder cls frame hf hc hfr
  have hid : ∀ s : String, s.data.asString = s := fun _ => rfl
  simp [split_key, hsegs, hid]

/-- The fixed destination buckets of `add_randomized_new_ml_folder_column`
(episode_service.py lines 78-83). -/
def new_ml_folder_choices : List String := ["train", "validate", "test"]

/-! ### The `egrep` key filter of the actual-state scanner

`s3_find_episode_jpg_keys_df` (lines 216-219) filters the recursive
listing through `egrep -e "TT_<split_episode_id>_FRM-.+\.jpg"`.  We model
the regex match over the characters of the key: an occurrence of the
literal `TT_<split_episode_id>_FRM-`, then at least one character, then a
later occurrence of `.jpg`. -/

/-- `hasSubstr pat l` decides whether `pat` occurs as a contiguous
sublist of `l`. -/
def hasSubstr (pat : List Char) : List Char → Bool
  | [] => List.isPrefixOf pat []
  | c :: rest => List.isPrefixOf pat (c :: rest) || hasSubstr pat rest

/-- Search for an occurrence of `pat` followed (after at least one more
character) by `.jpg`. -/
def egrepFrameMatchAux (pat : List Char) : List Char → Bool
  | [] => false
  | c :: rest =>
    (List.isPrefixOf pat (c :: rest) &&
      (match (c :: rest).drop pat.length with
       | [] => false
       | _ :: after1 => hasSubstr ('.' :: jpgChars) after1))
    || egrepFrameMatchAux pat rest

/-- Whether a key passes the scanner's
`egrep -e "TT_<split_episode_id>_FRM-.+\.jpg"` filter. -/
def egrep_episode_key (split_episode_id key : String) : Bool :=
  egrepFrameMatchAux ("TT_" ++ split_episode_id ++ "_FRM-").data key.data

theorem hasSubstr_tail_self (p : List Char) (x : List Char) (hp : p ≠ []) :
    hasSubstr p (x ++ p) = true := by
  induction x with
  | nil =>
    cases p with
    | nil => exact absurd rfl hp
    | cons c t =>
      simp only [List.nil_append, hasSubstr, Bool.or_eq_true]
      exact Or.inl (List.isPrefixOf_iff_prefix.mpr (List.prefix_refl _))
  | cons c x ih =>
    simp only [List.cons_append, hasSubstr, Bool.or_eq_true]
    exact Or.inr ih

theorem egrepFrameMatchAux_of_decomp (pat a : List Char) (c : Char) (t : List Char)
    (ht : hasSubstr ('.' :: jpgChars) t = true) :
    egrepFrameMatchAux pat (a ++ (pat ++ c :: t)) = true := by
  induction a with
  | nil =>
    have hpre : List.isPrefixOf pat (pat ++ c :: t) = true :=
      List.isPrefixOf_iff_prefix.mpr (List.prefix_append _ _)
    have hdrop : (pat ++ c :: t).drop pat.length = c :: t := List.drop_left _ _
    cases hp : (pat ++ c :: t) with
    | nil =>
      exact absurd hp (by simp)
    | cons d rest =>
      simp only [egrepFrameMatchAux, Bool.or_eq_true]
      refine Or.inl ?_
      rw [hp] at hpre hdrop
      rw [hdrop]
      simp [hpre, ht]
  | cons x a ih =>
    simp only [List.cons_append, egrepFrameMatchAux, Bool.or_eq_true]
    exact Or.inr ih

/-! ### Actual-state scanner

Embedding of `s3_find_episode_jpg_keys_df` (episode_service.py lines
202-240).  The recursive listing `s3_ls_recursive` is an external
collaborator (it is imported but not defined in the sources); its result,
the list of keys under `tuttle_twins/ML/`, is a parameter. -/

/-- One row of the dataframe returned by `s3_find_episode_jpg_keys_df`
(columns `[episode_id, img_frame, ml_key]`; `last_modified` and `size`
are dropped by the final column selection and irrelevant here). -/
structure ScanRow where
  episode_id : String
  img_frame : Option String
  ml_key : Option String
deriving Repr, DecidableEq

/-- Embedding of `s3_find_episode_jpg_keys_df`: filter the listed keys
through `egrep "TT_<split_episode_id>_FRM-.+\.jpg"`; an empty match list
returns an empty dataframe (lines 220-222); otherwise each key is parsed
by `split_key_in_df` (a failing parse - more than 8 segments - raises,
hence `none`); then line 233 `df['episode_id'] = episode_id` overwrites
the parsed `episode_id` column for every row, and the
`assert num_ne == 0` of lines 234-235 counts the rows whose
(just overwritten) `episode_id` differs from `episode_id`. -/
def s3_find_episode_jpg_keys_df (episode_id split_episode_id : String)
    (s3_ls_keys : List String) : Option (List ScanRow) :=
  let s3_keys_list := s3_ls_keys.filter fun k => egrep_episode_key split_episode_id k
  if s3_keys_list.length = 0 then some []
  else
    match s3_keys_list.mapM split_key with
    | none => none
    | some rows =>
      let overwritten := rows.map fun r => { r with episode_id := some episode_id }
      let num_ne := (overwritten.filter fun r => !(r.episode_id == some episode_id)).length
      if num_ne = 0 then
        some (overwritten.map fun r => ⟨episode_id, r.img_frame, r.ml_key⟩)
      else none

/-! ### Desired-state provider

Embedding of `find_google_episode_keys_df` (lines 90-159) together with
`add_randomized_new_ml_folder_column` (lines 74-88).  The spreadsheet
contents, the subsample permutation chosen by `DataFrame.sample` and the
folder draw of `random.choices` are parameters. -/

/-- One raw row of the google episode sheet: the `FRAME NUMBER` column
and the three classification columns used at lines 144-147. -/
structure SheetRow where
  frame_number : String
  jonnys_reclassification : String
  supervised_classification : String
  unsupervised_classification : String
deriving Repr, DecidableEq

/-- One output row of `find_google_episode_keys_df` (columns
`[episode_id, img_src, img_frame, new_ml_key]`; `episode_id` is the
constant episode id of the run and is dropped here). -/
structure GRow where
  img_frame : String
  img_src : String
  new_ml_key : Option String
deriving Repr, DecidableEq

/-- Lines 144-147: `new_ml_img_class` is JONNYs RECLASSIFICATION when
non-empty, else SUPERVISED CLASSIFICATION when non-empty, else
UNSUPERVISED CLASSIFICATION when non-empty, else `None`. -/
def new_ml_img_class (r : SheetRow) : Option String :=
  if 0 < r.jonnys_reclassification.length then some r.jonnys_reclassification
  else if 0 < r.supervised_classification.length then some r.supervised_classification
  else if 0 < r.unsupervised_classification.length then some r.unsupervised_classification
  else none

/-- Python `round` (round half to even) of the fraction `n / d`,
modelling `round(len(df) * (1.0 / 200.0))` at line 108 with the exact
rational in place of the float product. -/
def pyRound (n d : Nat) : Nat :=
  let q := n / d
  let r := n % d
  if 2 * r < d then q
  else if d < 2 * r then q + 1
  else if q % 2 = 0 then q else q + 1

/-- Index of the first occurrence of `pat` in a character list
(Python `str.find`, `none` for `-1`). -/
def substrIdx (pat : List Char) : List Char → Option Nat
  | [] => if List.isPrefixOf pat [] then some 0 else none
  | c :: rest =>
    if List.isPrefixOf pat (c :: rest) then some 0
    else (substrIdx pat rest).map (· + 1)

/-- Lines 110-117: take the base url (the name of column 0) from its
first occurrence of `tuttle_twins` on; Python slices `s[-1:]` when
`find` returns `-1`. -/
def s3_img_src_base_of (s3_thumbnails_base_url : String) : String :=
  match substrIdx "tuttle_twins".data s3_thumbnails_base_url.data with
  | some i => (s3_thumbnails_base_url.data.drop i).asString
  | none => (s3_thumbnails_base_url.data.drop (s3_thumbnails_base_url.data.length - 1)).asString

/-- Lowercase a string characterwise (`str.lower()`). -/
def lowerStr (s : String) : String := (s.data.map Char.toLower).asString

/-- Uppercase a string characterwise (`str.upper()`). -/
def upperStr (s : String) : String := (s.data.map Char.toUpper).asString

/-- Case-insensitive containment, modelling
`df['FRAME NUMBER'].str.contains(episode_frame_code, case=False)`
(line 129). -/
def containsCI (pat s : String) : Bool :=
  hasSubstr (lowerStr pat).data (lowerStr s).data

/-- Embedding of `add_randomized_new_ml_folder_column` (lines 74-88):
pair each row with the folder drawn for it by
`random.choices(["train", "validate", "test"], weights=[0.7, 0.2, 0.1],
k=len(df))`; the draw itself is the parameter `new_ml_folders`. -/
def add_randomized_new_ml_folder_column (df : List SheetRow)
    (new_ml_folders : List String) : List (SheetRow × String) :=
  df.zip new_ml_folders

/-- Embedding of `find_google_episode_keys_df` (lines 90-159):
reject an empty sheet (line 105); keep `round(len(df) / 200)` rows of the
shuffle chosen by `DataFrame.sample` (line 108); extract the img-src base
from the column-0 url and require it to contain the lowercase episode id
(lines 110-122); require every kept `FRAME NUMBER` to contain
`TT_<split_episode_id>_FRM` case-insensitively (lines 124-132); emit one
record per kept row with `img_src = base + frame + ".jpg"` and
`new_ml_key = new_ml_folder + "/" + new_ml_img_class` when the class is
present, else `None` (lines 134-156). -/
def find_google_episode_keys_df (episode_id split_episode_id : String)
    (s3_thumbnails_base_url : String) (sheet_rows shuffled : List SheetRow)
    (new_ml_folders : List String) : Option (List GRow) :=
  if sheet_rows.length = 0 then none
  else
    let df := shuffled.take (pyRound sheet_rows.length 200)
    let base := s3_img_src_base_of s3_thumbnails_base_url
    if hasSubstr (lowerStr episode_id).data base.data = false then none
    else
      let episode_frame_code := upperStr ("TT_" ++ split_episode_id ++ "_FRM")
      if (df.filter fun r => !(containsCI episode_frame_code r.frame_number)).length ≠ 0
      then none
      else
        some ((add_randomized_new_ml_folder_column df new_ml_folders).map
          fun rf =>
            { img_frame := rf.1.frame_number
              img_src := base ++ rf.1.frame_number ++ ".jpg"
              new_ml_key := (new_ml_img_class rf.1).map
                fun c => rf.2 ++ "/" ++ c })

/-! ### Reconciler

Embedding of the per-episode body of `process_episodes` (lines 245-485).
Dataframes `G` (desired state) and `C`, `C2`, `C4` (actual-state scans)
become lists of per-row structures; the three mid-run rescans are
observations of the store and enter as separate inputs where a function
needs them.  The constant `episode_id` columns (equal on both join sides)
are dropped from the rows. -/

/-- One row of the actual-state dataframes `C`, `C2`, `C4` as consumed by
the joins: the frame and the nullable `ml_key`.  A pandas-`NaN`
`img_frame` (never produced for well-formed keys) is represented by the
empty string. -/
structure CRow where
  img_frame : String
  ml_key : Option String
deriving Repr, DecidableEq

/-- Boundary from the scanner's row to the join row. -/
def scanRowToCRow (r : ScanRow) : CRow :=
  ⟨r.img_frame.getD "", r.ml_key⟩

/-- One row of `J1 = C.merge(G, how='left', on=['episode_id', 'img_frame'])`
(lines 288-299). -/
structure J1Row where
  img_frame : String
  ml_key : Option String
  img_src : Option String
  new_ml_key : Option String
deriving Repr, DecidableEq

/-- Lines 288-299: left join of `C` with `G` on the frame
(one row per `C` row; a duplicated frame in `G` would multiply rows in
pandas, the theorems below assume per-unit frame uniqueness, spec 4.4);
when `C` is empty, `J1` is `G` with a null `ml_key`. -/
def mkJ1 (G : List GRow) (C : List CRow) : List J1Row :=
  if 0 < C.length then
    C.map fun c =>
      match G.find? (fun g => g.img_frame == c.img_frame) with
      | some g => ⟨c.img_frame, c.ml_key, some g.img_src, g.new_ml_key⟩
      | none => ⟨c.img_frame, c.ml_key, none, none⟩
  else
    G.map fun g => ⟨g.img_frame, none, some g.img_src, g.new_ml_key⟩

/-- Pandas `Series.ne` on nullable object-dtype values: a null compares
unequal to everything, itself included (`None != None` is `True`). -/
def pandasNe (a b : Option String) : Bool :=
  match a, b with
  | some x, some y => !(x == y)
  | _, _ => true

/-- Line 306: keep only rows where `ml_key.ne(new_ml_key)` (pandas `ne`:
a row with both keys null is kept). -/
def j1_filtered (G : List GRow) (C : List CRow) : List J1Row :=
  (mkJ1 G C).filter fun r => pandasNe r.ml_key r.new_ml_key

/-- Line 314: `J1_del`, the rows with a present `ml_key` and a null
`new_ml_key`. -/
def j1_del (G : List GRow) (C : List CRow) : List J1Row :=
  (j1_filtered G C).filter fun r => r.ml_key.isSome && r.new_ml_key.isNone

/-- Line 317: the keys deleted for `J1_del` rows
(`"tuttle_twins/ML/" + ml_key + '/' + img_frame + ".jpg"`). -/
def del_keys (G : List GRow) (C : List CRow) : List String :=
  (j1_del G C).map fun r => render_key (r.ml_key.getD "") r.img_frame

/-- Line 330 (inside `if len(J1_del) > 0`): drop `J1` rows whose `ml_key`
is in `del_keys`.  (`del_keys` holds full storage keys while `ml_key` is
`folder/class`, so for well-formed rows this filter keeps everything.) -/
def j1_after_del (G : List GRow) (C : List CRow) : List J1Row :=
  if 0 < (j1_del G C).length then
    (j1_filtered G C).filter fun r =>
      match r.ml_key with
      | some m => !((del_keys G C).contains m)
      | none => true
  else j1_filtered G C

/-- Line 338: `J1_mv`, the remaining rows with both keys present. -/
def j1_mv (G : List GRow) (C : List CRow) : List J1Row :=
  (j1_after_del G C).filter fun r => r.ml_key.isSome && r.new_ml_key.isSome

/-- Lines 350-359: source keys of the move phase. -/
def mv_src_keys (G : List GRow) (C : List CRow) : List String :=
  (j1_mv G C).map fun r => render_key (r.ml_key.getD "") r.img_frame

/-- Lines 354-360: destination keys of the move phase. -/
def mv_dst_keys (G : List GRow) (C : List CRow) : List String :=
  (j1_mv G C).map fun r => render_key (r.new_ml_key.getD "") r.img_frame

/-- One row of `J2 = G2.merge(C2, how='left', on=['episode_id',
'img_frame'])` (lines 377-405). -/
structure J2Row where
  img_frame : String
  new_ml_key : Option String
  ml_key : Option String
deriving Repr, DecidableEq

/-- Lines 392-401: left join of `G2` (i.e. `G` without `img_src`) with
the fresh scan `C2`; when `C2` is empty, `J2` is `G2` with a null
`ml_key`. -/
def mkJ2 (G : List GRow) (C2 : List CRow) : List J2Row :=
  if 0 < C2.length then
    G.map fun g =>
      match C2.find? (fun c => c.img_frame == g.img_frame) with
      | some c => ⟨g.img_frame, g.new_ml_key, c.ml_key⟩
      | none => ⟨g.img_frame, g.new_ml_key, none⟩
  else
    G.map fun g => ⟨g.img_frame, g.new_ml_key, none⟩

/-- Line 408: keep only rows where `new_ml_key.ne(ml_key)` (pandas `ne`:
a row with both keys null is kept). -/
def j2_filtered (G : List GRow) (C2 : List CRow) : List J2Row :=
  (mkJ2 G C2).filter fun r => pandasNe r.new_ml_key r.ml_key

/-- One row of `J3` (lines 410-429). -/
structure J3Row where
  img_frame : String
  new_ml_key : Option String
  ml_key : Option String
  img_src : Option String
deriving Repr, DecidableEq

/-- Lines 416-425: `J3 = J2.merge(G3, how='left', on=['episode_id',
'img_frame', 'new_ml_key'])` when `J2` is non-empty; otherwise
(lines 422-425) `J3` is set to all of `G` with a null `ml_key`. -/
def mkJ3 (G : List GRow) (C2 : List CRow) : List J3Row :=
  if 0 < (j2_filtered G C2).length then
    (j2_filtered G C2).map fun j =>
      match G.find? (fun g =>
          g.img_frame == j.img_frame && g.new_ml_key == j.new_ml_key) with
      | some g => ⟨j.img_frame, j.new_ml_key, j.ml_key, some g.img_src⟩
      | none => ⟨j.img_frame, j.new_ml_key, j.ml_key, none⟩
  else
    G.map fun g => ⟨g.img_frame, g.new_ml_key, none, some g.img_src⟩

/-- Line 432: `J3_cp`, the rows with a present `new_ml_key` and a null
`ml_key`. -/
def j3_cp (G : List GRow) (C2 : List CRow) : List J3Row :=
  (mkJ3 G C2).filter fun r => r.new_ml_key.isSome && r.ml_key.isNone

/-- Line 437: sources of the copy phase (the thumbnail urls). -/
def cp_src_urls (G : List GRow) (C2 : List CRow) : List String :=
  (j3_cp G C2).map fun r => r.img_src.getD ""

/-- Line 436: destinations of the copy phase. -/
def cp_dst_keys (G : List GRow) (C2 : List CRow) : List String :=
  (j3_cp G C2).map fun r => render_key (r.new_ml_key.getD "") r.img_frame

/-- An operation issued against the object store. -/
inductive S3Op where
  | deleteOp (key : String)
  | copyOp (src dst : String)
deriving Repr, DecidableEq

/-- The deletes issued by lines 315-327 (`if len(J1_del) > 0`). -/
def delete_phase_ops (G : List GRow) (C : List CRow) : List S3Op :=
  if 0 < (j1_del G C).length then (del_keys G C).map S3Op.deleteOp else []

/-- The copies-then-deletes issued by lines 339-369
(`if len(J1_mv) > 0`): `s3_copy_files` over all source/destination pairs,
then `s3_delete_files` over all sources. -/
def move_phase_ops (G : List GRow) (C : List CRow) : List S3Op :=
  if 0 < (j1_mv G C).length then
    List.zipWith S3Op.copyOp (mv_src_keys G C) (mv_dst_keys G C) ++
      (mv_src_keys G C).map S3Op.deleteOp
  else []

/-- The copies issued by lines 434-448 (`if len(J3_cp) > 0`). -/
def copy_phase_ops (G : List GRow) (C2 : List CRow) : List S3Op :=
  if 0 < (j3_cp G C2).length then
    List.zipWith S3Op.copyOp (cp_src_urls G C2) (cp_dst_keys G C2)
  else []

/-- The per-episode operation sequence, in issue order, with the phase of
each operation (0 = stale-key delete, 1 = move, 2 = copy-from-source).
Lines 256-259 skip the episode entirely when `G` has no rows. -/
def episode_phased_ops (G : List GRow) (C C2 : List CRow) :
    List (Nat × S3Op) :=
  if G.length = 0 then []
  else
    (delete_phase_ops G C).map (fun op => (0, op)) ++
      (move_phase_ops G C).map (fun op => (1, op)) ++
      (copy_phase_ops G C2).map (fun op => (2, op))

/-- The per-episode operation sequence in issue order. -/
def episode_ops (G : List GRow) (C C2 : List CRow) : List S3Op :=
  if G.length = 0 then []
  else delete_phase_ops G C ++ move_phase_ops G C ++ copy_phase_ops G C2

/-! ### Object-store model

Modelled from the spec: `s3_copy_files`, `s3_delete_files` and
`s3_ls_recursive` are imported by `episode_service.py` but are not among
the sources; the spec (section 6) gives the collaborator contract
`copy(src_bucket, src_key, dst_bucket, dst_key)` and
`delete_many(bucket, keys)` over a flat key-addressed store with no
server-side versioning.  The store is the list of keys under
`tuttle_twins/ML/`; a copy makes the destination key exist, a delete
removes the key. -/

/-- Modelled from the spec: effect of one operation on the set of stored
keys (a copy creates/overwrites `dst`; a delete removes the key). -/
def applyOp (store : List String) : S3Op → List String
  | S3Op.deleteOp k => store.filter fun x => !(x == k)
  | S3Op.copyOp _ dst => if store.contains dst then store else store ++ [dst]

/-- Modelled from the spec: effect of an operation sequence (all
operations succeed: the no-failure hypothesis of the claims). -/
def applyOps (store : List String) (ops : List S3Op) : List String :=
  ops.foldl applyOp store

/-- Modelled from the spec (sections 4.5 and 7): the executor retries
transient failures and records a frame whose copy exhausts its retries as
failed without raising, and keeps executing the remaining operations.
`copyFails` is the oracle saying which copies fail permanently.  Returns
the final store and the destinations of the failed copies. -/
def execute_ops (copyFails : String × String → Bool) (ops : List S3Op)
    (store : List String) : List String × List String :=
  ops.foldl
    (fun acc op =>
      match op with
      | S3Op.deleteOp k => (acc.1.filter fun x => !(x == k), acc.2)
      | S3Op.copyOp s d =>
        if copyFails (s, d) then (acc.1, acc.2 ++ [d])
        else (if acc.1.contains d then acc.1 else acc.1 ++ [d], acc.2))
    (store, [])

/-- Scan the store and convert to join rows (`C = s3_find_episode_jpg_keys_df(episode)`). -/
def scanC (episode_id split_episode_id : String) (store : List String) :
    Option (List CRow) :=
  (s3_find_episode_jpg_keys_df episode_id split_episode_id store).map
    (List.map scanRowToCRow)

/-- One full no-failure reconciliation run of an episode over a store:
first scan `C`, execute the delete and move phases, rescan `C2`, execute
the copy phase; returns the resulting store. -/
def run_episode (episode_id split_episode_id : String) (G : List GRow)
    (store : List String) : Option (List String) :=
  (scanC episode_id split_episode_id store).bind fun C =>
    if G.length = 0 then some store
    else
      (scanC episode_id split_episode_id
          (applyOps store (delete_phase_ops G C ++ move_phase_ops G C))).bind
        fun C2 =>
          some (applyOps
            (applyOps store (delete_phase_ops G C ++ move_phase_ops G C))
            (copy_phase_ops G C2))

/-- The operation sequence a second run over the same desired snapshot
`G` would issue, after a first no-failure run from `store` (an episode
with no desired rows is skipped, lines 256-259). -/
def second_run_plan (episode_id split_episode_id : String) (G : List GRow)
    (store : List String) : Option (List S3Op) :=
  (run_episode episode_id split_episode_id G store).bind fun store3 =>
    (scanC episode_id split_episode_id store3).bind fun C1 =>
      if G.length = 0 then some []
      else
        (scanC episode_id split_episode_id
            (applyOps store3
              (delete_phase_ops G C1 ++ move_phase_ops G C1))).bind
          fun C2 => some (episode_ops G C1 C2)

/-! ### Verifier

Embedding of lines 450-485: a fresh scan `C4` is compared against `G2`
(`G` with `new_ml_key` renamed to `ml_key`); an empty `C4` raises
(lines 454-455); otherwise only the dataframe *shapes* are compared, and
the outcome of the comparison is written to the log at INFO level
(lines 480-485) - nothing is raised and nothing is returned. -/

/-- What the final comparison can do. -/
inductive VerifyOutcome where
  | zeroFilesError
  | shapesEqualLogged
  | shapesDifferLogged
deriving Repr, DecidableEq

/-- `G2 = G[['episode_id', 'img_frame', 'new_ml_key']].rename(
columns={'new_ml_key': 'ml_key'})` (lines 465-466). -/
def g2_rows (G : List GRow) : List CRow :=
  G.map fun g => ⟨g.img_frame, g.new_ml_key⟩

/-- The verification of lines 453-485: raise on an empty `C4`, otherwise
compare `C4.shape` with `G2.shape` (row count and the 3 columns) and log
the result. -/
def verify_episode (C4 : List CRow) (G : List GRow) : VerifyOutcome :=
  if C4.length = 0 then VerifyOutcome.zeroFilesError
  else if (C4.length, 3) = ((g2_rows G).length, 3) then
    VerifyOutcome.shapesEqualLogged
  else VerifyOutcome.shapesDifferLogged

/-! ### Well-formedness predicates used in the universal theorems -/

/-- A well-formed `ml_key`: `folder/class` with separator-free parts. -/
def MLKeyWF (m : String) : Prop :=
  ∃ folder cls, m = folder ++ "/" ++ cls ∧ sepFree folder = true ∧ sepFree cls = true

/-- A well-formed frame for the scanned episode: separator-free and of
the shape `TT_<split_episode_id>_FRM-<nonempty suffix>` (the shape both
checked by the provider at lines 124-132 and required by the scanner's
`egrep` filter). -/
def FrameWF (split_episode_id fr : String) : Prop :=
  sepFree fr = true ∧
    ∃ s : String, fr = "TT_" ++ split_episode_id ++ "_FRM-" ++ s ∧ s ≠ ""

/-! ### Claim theorems -/

/-- C1: key construction is a bijection.  For every placement with a
bucket from the fixed set and a concrete (separator-free) class and every
separator-free frame, `split_key` applied to the rendered key recovers
exactly the original folder, class and frame (and the derived `ml_key`
and `episode_id` columns), and rendering is injective on such pairs. -/
theorem key_render_split_bijection :
    (∀ folder cls frame : String,
        (folder = "train" ∨ folder = "validate" ∨ folder = "test") →
        sepFree cls = true → sepFree frame = true →
        split_key (render_key (folder ++ "/" ++ cls) frame) =
          some ⟨some folder, some cls, some frame,
            some (folder ++ "/" ++ cls), frame_episode_id frame⟩) ∧
    (∀ f1 c1 r1 f2 c2 r2 : String,
        (f1 = "train" ∨ f1 = "validate" ∨ f1 = "test") →
        sepFree c1 = true → sepFree r1 = true →
        (f2 = "train" ∨ f2 = "validate" ∨ f2 = "test") →
        sepFree c2 = true → sepFree r2 = true →
        render_key (f1 ++ "/" ++ c1) r1 = render_key (f2 ++ "/" ++ c2) r2 →
        f1 = f2 ∧ c1 = c2 ∧ r1 = r2) := by
  have round : ∀ folder cls frame : String,
      (folder = "train" ∨ folder = "validate" ∨ folder = "test") →
      sepFree cls = true → sepFree frame = true →
      split_key (render_key (folder ++ "/" ++ cls) frame) =
        some ⟨some folder, some cls, some frame,
          some (folder ++ "/" ++ cls), frame_episode_id frame⟩ := by
    intro folder cls frame hb hc hfr
    have hf : sepFree folder = true := by
      rcases hb with h | h | h <;> subst h <;> decide
    exact split_key_render_key folder cls frame hf hc hfr
  refine ⟨round, ?_⟩
  intro f1 c1 r1 f2 c2 r2 hb1 hc1 hr1 hb2 hc2 hr2 heq
  have e1 := round f1 c1 r1 hb1 hc1 hr1
  have e2 := round f2 c2 r2 hb2 hc2 hr2
  rw [heq] at e1
  have h := e1.symm.trans e2
  simp only [Option.some.injEq, KeyRow.mk.injEq] at h
  exact ⟨h.1, h.2.1, h.2.2.1⟩

/-- Witness for C1 at the concrete pair
(`train/Common`, `TT_S01_E01_FRM-00-00-08-11`). -/
theorem key_render_split_bijection_witness :
    split_key (render_key ("train" ++ "/" ++ "Common") "TT_S01_E01_FRM-00-00-08-11") =
      some ⟨some "train", some "Common", some "TT_S01_E01_FRM-00-00-08-11",
        some ("train" ++ "/" ++ "Common"), frame_episode_id "TT_S01_E01_FRM-00-00-08-11"⟩ :=
  key_render_split_bijection.1 "train" "Common" "TT_S01_E01_FRM-00-00-08-11"
    (Or.inl rfl) (by decide) (by decide)

/-- C5: phase ordering of the executed plan.  The per-episode operation
sequence is exactly the phase-tagged sequence stripped of its tags, and
along that sequence the phase never decreases: every stale-key delete
(phase 0) is issued before every move operation (phase 1), and every
move operation before every copy-from-source (phase 2). -/
theorem episode_ops_phase_ordered (G : List GRow) (C C2 : List CRow) :
    episode_ops G C C2 = (episode_phased_ops G C C2).map Prod.snd ∧
    List.Pairwise (fun a b : Nat × S3Op => a.1 ≤ b.1)
      (episode_phased_ops G C C2) := by
  constructor
  · simp only [episode_ops, episode_phased_ops]
    by_cases hG : G.length = 0
    · simp [hG]
    · simp [hG, List.map_append, List.map_map, Function.comp]
  · simp only [episode_phased_ops]
    by_cases hG : G.length = 0
    · simp [hG]
    · simp only [hG, if_false]
      have tag0 : ∀ x ∈ (delete_phase_ops G C).map (fun op => (0, op)),
          (x : Nat × S3Op).1 = 0 := by
        intro x hx
        obtain ⟨op, -, rfl⟩ := List.mem_map.mp hx
        rfl
      have tag1 : ∀ x ∈ (move_phase_ops G C).map (fun op => (1, op)),
          (x : Nat × S3Op).1 = 1 := by
        intro x hx
        obtain ⟨op, -, rfl⟩ := List.mem_map.mp hx
        rfl
      have tag2 : ∀ x ∈ (copy_phase_ops G C2).map (fun op => (2, op)),
          (x : Nat × S3Op).1 = 2 := by
        intro x hx
        obtain ⟨op, -, rfl⟩ := List.mem_map.mp hx
        rfl
      have ptag : ∀ (t : Nat) (l : List S3Op),
          List.Pairwise (fun a b : Nat × S3Op => a.1 ≤ b.1)
            (l.map fun op => (t, op)) := by
        intro t l
        induction l with
        | nil => simp
        | cons x l ih =>
          simp only [List.map_cons, List.pairwise_cons]
          refine ⟨?_, ih⟩
          intro y hy
          obtain ⟨op, -, rfl⟩ := List.mem_map.mp hy
          exact le_refl t
      rw [List.pairwise_append]
      refine ⟨?_, ptag 2 _, ?_⟩
      · rw [List.pairwise_append]
        refine ⟨ptag 0 _, ptag 1 _, ?_⟩
        intro a ha b hb
        rw [tag0 a ha]
        exact Nat.zero_le _
      · intro a ha b hb
        rw [tag2 b hb]
        rcases List.mem_append.mp ha with h | h
        · rw [tag0 a h]; omega
        · rw [tag1 a h]; omega

/-- C6 (corrected): an episode whose desired state is empty is skipped
entirely (`if len(G) == 0: continue`, lines 256-259): no operation at all
is issued, in particular no delete of the stale stored frame. -/
theorem empty_desired_skips_episode (C C2 : List CRow) :
    episode_ops ([] : List GRow) C C2 = [] := by
  simp [episode_ops]

/-- C6 counterexample: with desired empty and the actual state holding
frame `TT_S01_E01_FRM-00-00-08-11` at `train/Common`, the plan is empty -
it is not the one-delete plan the claim requires, and the stored file is
not deleted. -/
theorem empty_desired_no_delete_counterexample :
    episode_ops ([] : List GRow)
        [⟨"TT_S01_E01_FRM-00-00-08-11", some "train/Common"⟩]
        [⟨"TT_S01_E01_FRM-00-00-08-11", some "train/Common"⟩] = [] ∧
    ([] : List S3Op) ≠
      [S3Op.deleteOp (render_key "train/Common" "TT_S01_E01_FRM-00-00-08-11")] ∧
    run_episode "S01E01" "S01_E01" ([] : List GRow)
        [render_key "train/Common" "TT_S01_E01_FRM-00-00-08-11"] =
      some [render_key "train/Common" "TT_S01_E01_FRM-00-00-08-11"] := by
  refine ⟨by decide, by decide, by decide⟩

theorem mem_mkJ1_nil {C : List CRow} {r : J1Row} (h : r ∈ mkJ1 [] C) :
    r.new_ml_key = none := by
  simp only [mkJ1] at h
  by_cases hc : 0 < C.length
  · rw [if_pos hc] at h
    obtain ⟨c, -, rfl⟩ := List.mem_map.mp h
    rfl
  · rw [if_neg hc] at h
    simp at h

theorem mem_j1_filtered_mkJ1 {G : List GRow} {C : List CRow} {r : J1Row}
    (h : r ∈ j1_filtered G C) : r ∈ mkJ1 G C :=
  (List.mem_filter.mp h).1

theorem mem_j1_after_del_filtered {G : List GRow} {C : List CRow} {r : J1Row}
    (h : r ∈ j1_after_del G C) : r ∈ j1_filtered G C := by
  simp only [j1_after_del] at h
  by_cases hd : 0 < (j1_del G C).length
  · rw [if_pos hd] at h
    exact (List.mem_filter.mp h).1
  · rwa [if_neg hd] at h

theorem j1_mv_nil (C : List CRow) : j1_mv ([] : List GRow) C = [] := by
  apply List.filter_eq_nil.mpr
  intro r hr
  have hnew : r.new_ml_key = none :=
    mem_mkJ1_nil (mem_j1_filtered_mkJ1 (mem_j1_after_del_filtered hr))
  simp [hnew]

/-- C4 (amended): for every move, the copy of the source key to the
destination key is issued strictly before the delete of that source key
(positionally in the issued operation sequence) - but, as the
counterexample shows, the delete is issued whether or not the copy
succeeded. -/
theorem move_copy_issued_before_delete (G : List GRow) (C C2 : List CRow)
    (k : Nat) (src dst : String)
    (hsrc : (mv_src_keys G C)[k]? = some src)
    (hdst : (mv_dst_keys G C)[k]? = some dst) :
    ∃ i j : Nat, i < j ∧
      (episode_ops G C C2)[i]? = some (S3Op.copyOp src dst) ∧
      (episode_ops G C C2)[j]? = some (S3Op.deleteOp src) := by
  have hk : k < (j1_mv G C).length := by
    obtain ⟨h1, -⟩ := List.getElem?_eq_some.mp hsrc
    simpa [mv_src_keys] using h1
  have hGne : ¬ G.length = 0 := by
    intro h0
    rw [List.length_eq_zero] at h0
    subst h0
    rw [j1_mv_nil] at hk
    exact absurd hk (by simp)
  have hmv_pos : 0 < (j1_mv G C).length := Nat.lt_of_le_of_lt (Nat.zero_le k) hk
  obtain ⟨r, hr⟩ : ∃ r, (j1_mv G C)[k]? = some r :=
    ⟨(j1_mv G C)[k], List.getElem?_eq_getElem hk⟩
  have hsrc' : S3Op.copyOp (render_key (r.ml_key.getD "") r.img_frame)
      (render_key (r.new_ml_key.getD "") r.img_frame) = S3Op.copyOp src dst := by
    have h1 := hsrc
    have h2 := hdst
    rw [mv_src_keys, List.getElem?_map, hr] at h1
    rw [mv_dst_keys, List.getElem?_map, hr] at h2
    simp only [Option.map_some'] at h1 h2
    rw [Option.some.injEq] at h1 h2
    rw [h1, h2]
  have hdel' : S3Op.deleteOp (render_key (r.ml_key.getD "") r.img_frame) =
      S3Op.deleteOp src := by
    have h1 := hsrc
    rw [mv_src_keys, List.getElem?_map, hr] at h1
    simp only [Option.map_some'] at h1
    rw [Option.some.injEq] at h1
    rw [h1]
  have hmove : move_phase_ops G C =
      (j1_mv G C).map (fun r => S3Op.copyOp
          (render_key (r.ml_key.getD "") r.img_frame)
          (render_key (r.new_ml_key.getD "") r.img_frame)) ++
        (j1_mv G C).map (fun r => S3Op.deleteOp
          (render_key (r.ml_key.getD "") r.img_frame)) := by
    rw [move_phase_ops, if_pos hmv_pos]
    simp only [mv_src_keys, mv_dst_keys, List.zipWith_map, List.zipWith_same,
      List.map_map]
    rfl
  have hops : episode_ops G C C2 =
      delete_phase_ops G C ++ move_phase_ops G C ++ copy_phase_ops G C2 := by
    simp [episode_ops, hGne]
  set D := delete_phase_ops G C with hD
  set L := (j1_mv G C).length with hL
  refine ⟨D.length + k, D.length + L + k, by omega, ?_, ?_⟩
  · rw [hops]
    have hlt1 : D.length + k < (D ++ move_phase_ops G C).length := by
      rw [List.length_append, hmove, List.length_append, List.length_map,
        List.length_map]
      omega
    rw [List.getElem?_append, if_pos hlt1]
    rw [List.getElem?_append_right (by omega : D.length ≤ D.length + k)]
    have hsub : D.length + k - D.length = k := by omega
    rw [hsub, hmove]
    have hltz : k < ((j1_mv G C).map (fun r => S3Op.copyOp
        (render_key (r.ml_key.getD "") r.img_frame)
        (render_key (r.new_ml_key.getD "") r.img_frame))).length := by
      rw [List.length_map]; omega
    rw [List.getElem?_append, if_pos hltz]
    rw [List.getElem?_map, hr]
    simp only [Option.map_some']
    rw [hsrc']
  · rw [hops]
    have hlt2 : D.length + L + k < (D ++ move_phase_ops G C).length := by
      rw [List.length_append, hmove, List.length_append, List.length_map,
        List.length_map]
      omega
    rw [List.getElem?_append, if_pos hlt2]
    rw [List.getElem?_append_right (by omega : D.length ≤ D.length + L + k)]
    have hsub : D.length + L + k - D.length = L + k := by omega
    rw [hsub, hmove]
    have hge : ((j1_mv G C).map (fun r => S3Op.copyOp
        (render_key (r.ml_key.getD "") r.img_frame)
        (render_key (r.new_ml_key.getD "") r.img_frame))).length ≤ L + k := by
      rw [List.length_map]; omega
    rw [List.getElem?_append_right hge]
    have hsub2 : L + k - ((j1_mv G C).map (fun r => S3Op.copyOp
        (render_key (r.ml_key.getD "") r.img_frame)
        (render_key (r.new_ml_key.getD "") r.img_frame))).length = k := by
      rw [List.length_map]; omega
    rw [hsub2]
    rw [List.getElem?_map, hr]
    simp only [Option.map_some']
    rw [hdel']

/-- Witness for the amended C4 at the one-move scenario: the copy from
`train/Common` to `validate/Common` is issued at position 0 and the
delete of the source at position 1. -/
theorem move_copy_issued_before_delete_witness :
    ∃ i j : Nat, i < j ∧
      (episode_ops [⟨"TT_S01_E01_FRM-00-00-08-11", "srcurl", some "validate/Common"⟩]
          [⟨"TT_S01_E01_FRM-00-00-08-11", some "train/Common"⟩]
          [⟨"TT_S01_E01_FRM-00-00-08-11", some "validate/Common"⟩])[i]? =
        some (S3Op.copyOp (render_key "train/Common" "TT_S01_E01_FRM-00-00-08-11")
          (render_key "validate/Common" "TT_S01_E01_FRM-00-00-08-11")) ∧
      (episode_ops [⟨"TT_S01_E01_FRM-00-00-08-11", "srcurl", some "validate/Common"⟩]
          [⟨"TT_S01_E01_FRM-00-00-08-11", some "train/Common"⟩]
          [⟨"TT_S01_E01_FRM-00-00-08-11", some "validate/Common"⟩])[j]? =
        some (S3Op.deleteOp (render_key "train/Common" "TT_S01_E01_FRM-00-00-08-11")) :=
  move_copy_issued_before_delete
    [⟨"TT_S01_E01_FRM-00-00-08-11", "srcurl", some "validate/Common"⟩]
    [⟨"TT_S01_E01_FRM-00-00-08-11", some "train/Common"⟩]
    [⟨"TT_S01_E01_FRM-00-00-08-11", some "validate/Common"⟩]
    0 (render_key "train/Common" "TT_S01_E01_FRM-00-00-08-11")
    (render_key "validate/Common" "TT_S01_E01_FRM-00-00-08-11")
    (by decide) (by decide)

/-- C4 counterexample: in the one-move scenario, when the move's copy
permanently fails (the oracle marks every copy failed, modelling
exhausted retries), the delete of the move's source is still issued and
applied: the run ends with the store empty (the only copy of the frame
destroyed) and the copy recorded as failed. -/
theorem move_delete_issued_despite_failed_copy_counterexample :
    execute_ops (fun _ => true)
        (episode_ops [⟨"TT_S01_E01_FRM-00-00-08-11", "srcurl", some "validate/Common"⟩]
          [⟨"TT_S01_E01_FRM-00-00-08-11", some "train/Common"⟩]
          [⟨"TT_S01_E01_FRM-00-00-08-11", some "train/Common"⟩])
        [render_key "train/Common" "TT_S01_E01_FRM-00-00-08-11"] =
      ([], [render_key "validate/Common" "TT_S01_E01_FRM-00-00-08-11"]) ∧
    (S3Op.deleteOp (render_key "train/Common" "TT_S01_E01_FRM-00-00-08-11")) ∈
      episode_ops [⟨"TT_S01_E01_FRM-00-00-08-11", "srcurl", some "validate/Common"⟩]
        [⟨"TT_S01_E01_FRM-00-00-08-11", some "train/Common"⟩]
        [⟨"TT_S01_E01_FRM-00-00-08-11", some "train/Common"⟩] := by
  refine ⟨by decide, by decide⟩

/-- C7 (code bug): the verification of lines 478-485 only compares
dataframe shapes, at log level.  With an actual state whose single frame
sits at `train/Common` while the desired snapshot wants `validate/Rare`,
the contents differ but the shapes agree, so the run logs the shapes as
equal and surfaces no integrity error to the caller. -/
theorem verification_swallows_content_mismatch :
    verify_episode [⟨"TT_S01_E01_FRM-00-00-08-11", some "train/Common"⟩]
        [⟨"TT_S01_E01_FRM-00-00-08-11", "srcurl", some "validate/Rare"⟩] =
      VerifyOutcome.shapesEqualLogged ∧
    ([⟨"TT_S01_E01_FRM-00-00-08-11", some "train/Common"⟩] : List CRow) ≠
      g2_rows [⟨"TT_S01_E01_FRM-00-00-08-11", "srcurl", some "validate/Rare"⟩] := by
  refine ⟨by decide, by decide⟩

/-- C8 (code bug): a listed key that passes the
`egrep "TT_S01_E01_FRM-.+\.jpg"` filter but whose parsed frame
`TT_S09_E09_FRM-00` belongs to a different episode is not rejected: line
233 overwrites the `episode_id` column before the `assert num_ne == 0`
of lines 234-235 checks it, so the scan returns the foreign record
relabelled `S01E01` instead of failing. -/
theorem scan_accepts_foreign_frame :
    egrep_episode_key "S01_E01"
        "tuttle_twins/ML/train/Common/TT_S09_E09_FRM-00/TT_S01_E01_FRM-0.jpg" = true ∧
    frame_episode_id "TT_S09_E09_FRM-00" = some "S09E09" ∧
    s3_find_episode_jpg_keys_df "S01E01" "S01_E01"
        ["tuttle_twins/ML/train/Common/TT_S09_E09_FRM-00/TT_S01_E01_FRM-0.jpg"] =
      some [⟨"S01E01", some "TT_S09_E09_FRM-00", some "train/Common"⟩] := by
  refine ⟨by decide, by decide, by decide⟩

/-- C3 (code bug): in a single no-failure run over one frame whose
desired placement is `validate/Common` and whose actual placement is
`train/Common`, the frame receives a Move (its key appears in the move
sources) and then, because the post-move diff `J2` is empty, the
fallback of lines 422-425 additionally issues a copy-from-source for the
same frame: two actions for one frame in one run. -/
theorem move_and_copy_same_frame :
    scanC "S01E01" "S01_E01"
        [render_key "train/Common" "TT_S01_E01_FRM-00-00-08-11"] =
      some [⟨"TT_S01_E01_FRM-00-00-08-11", some "train/Common"⟩] ∧
    mv_src_keys [⟨"TT_S01_E01_FRM-00-00-08-11", "srcurl", some "validate/Common"⟩]
        [⟨"TT_S01_E01_FRM-00-00-08-11", some "train/Common"⟩] =
      [render_key "train/Common" "TT_S01_E01_FRM-00-00-08-11"] ∧
    applyOps [render_key "train/Common" "TT_S01_E01_FRM-00-00-08-11"]
        (delete_phase_ops
            [⟨"TT_S01_E01_FRM-00-00-08-11", "srcurl", some "validate/Common"⟩]
            [⟨"TT_S01_E01_FRM-00-00-08-11", some "train/Common"⟩] ++
          move_phase_ops
            [⟨"TT_S01_E01_FRM-00-00-08-11", "srcurl", some "validate/Common"⟩]
            [⟨"TT_S01_E01_FRM-00-00-08-11", some "train/Common"⟩]) =
      [render_key "validate/Common" "TT_S01_E01_FRM-00-00-08-11"] ∧
    scanC "S01E01" "S01_E01"
        [render_key "validate/Common" "TT_S01_E01_FRM-00-00-08-11"] =
      some [⟨"TT_S01_E01_FRM-00-00-08-11", some "validate/Common"⟩] ∧
    cp_dst_keys [⟨"TT_S01_E01_FRM-00-00-08-11", "srcurl", some "validate/Common"⟩]
        [⟨"TT_S01_E01_FRM-00-00-08-11", some "validate/Common"⟩] =
      [render_key "validate/Common" "TT_S01_E01_FRM-00-00-08-11"] := by
  refine ⟨by decide, by decide, by decide, by decide, by decide⟩

/-- The precedence rule as the spec words it: the class is the first
non-empty value among JONNYs RECLASSIFICATION, SUPERVISED CLASSIFICATION
and UNSUPERVISED CLASSIFICATION. -/
def firstNonEmptyClassification (r : SheetRow) : Option String :=
  [r.jonnys_reclassification, r.supervised_classification,
    r.unsupervised_classification].find? fun s => s != ""

theorem length_pos_iff_ne_empty (s : String) : (0 < s.length) ↔ s ≠ "" := by
  constructor
  · intro h he
    subst he
    simp at h
  · intro h
    have hd : s.data ≠ [] := by
      intro hd
      exact h (String.ext hd)
    rw [show s.length = s.data.length from rfl]
    exact List.length_pos.mpr hd

/-- C9 (amended): the class resolved at lines 144-147 is exactly the
first non-empty classification in the fixed precedence order, and every
sampled row is emitted - including, as the counterexample shows, rows
whose three classification cells are all empty, which are emitted with
an absent class (and hence a null `new_ml_key`). -/
theorem class_resolution_precedence :
    (∀ r : SheetRow, new_ml_img_class r = firstNonEmptyClassification r) ∧
    (∀ episode_id split_episode_id url : String,
      ∀ sheet_rows shuffled : List SheetRow, ∀ folders : List String,
      ∀ G : List GRow,
      find_google_episode_keys_df episode_id split_episode_id url
          sheet_rows shuffled folders = some G →
      ∀ i : Nat, ∀ g : GRow, G[i]? = some g →
        ∃ r fld,
          (shuffled.take (pyRound sheet_rows.length 200))[i]? = some r ∧
          folders[i]? = some fld ∧
          g.img_frame = r.frame_number ∧
          g.new_ml_key = (firstNonEmptyClassification r).map
            fun c => fld ++ "/" ++ c) := by
  have resolve : ∀ r : SheetRow, new_ml_img_class r = firstNonEmptyClassification r := by
    intro r
    simp only [new_ml_img_class, firstNonEmptyClassification, List.find?]
    cases hb1 : r.jonnys_reclassification == "" <;>
      cases hb2 : r.supervised_classification == "" <;>
        cases hb3 : r.unsupervised_classification == "" <;>
          simp only [bne, hb1, hb2, hb3, Bool.not_false, Bool.not_true] <;>
          simp_all [length_pos_iff_ne_empty, beq_iff_eq, beq_eq_false_iff_ne]
  refine ⟨resolve, ?_⟩
  intro eid split url sheet_rows shuffled folders G hfind i g hg
  simp only [find_google_episode_keys_df] at hfind
  split at hfind
  · exact absurd hfind (by simp)
  · split at hfind
    · exact absurd hfind (by simp)
    · split at hfind
      · exact absurd hfind (by simp)
      · rw [Option.some.injEq] at hfind
        subst hfind
        rw [add_randomized_new_ml_folder_column, List.getElem?_map] at hg
        cases hzip : ((shuffled.take (pyRound sheet_rows.length 200)).zip folders)[i]? with
        | none => rw [hzip] at hg; simp at hg
        | some rf =>
          rw [hzip] at hg
          simp only [Option.map_some'] at hg
          rw [Option.some.injEq] at hg
          subst hg
          have hz := List.getElem?_zip_eq_some.mp hzip
          exact ⟨rf.1, rf.2, hz.1, hz.2, rfl, by rw [resolve]⟩

/-- Witness for the amended C9: a concrete provider run over a sheet of
101 identical rows classified `Common` by JONNYs RECLASSIFICATION; the
single sampled record resolves to class `Common`. -/
theorem class_resolution_precedence_witness :
    ∃ r fld,
      ((List.replicate 101
          (⟨"TT_S01_E02_FRM-00-00-08-11", "Common", "", ""⟩ : SheetRow)).take
        (pyRound (List.replicate 101
          (⟨"TT_S01_E02_FRM-00-00-08-11", "Common", "", ""⟩ : SheetRow)).length
          200))[0]? = some r ∧
      (["train"] : List String)[0]? = some fld ∧
      (GRow.mk "TT_S01_E02_FRM-00-00-08-11"
        "tuttle_twins/s01e02/default_eng/v1/frames/thumbnails/TT_S01_E02_FRM-00-00-08-11.jpg"
        (some "train/Common")).img_frame = r.frame_number ∧
      (GRow.mk "TT_S01_E02_FRM-00-00-08-11"
        "tuttle_twins/s01e02/default_eng/v1/frames/thumbnails/TT_S01_E02_FRM-00-00-08-11.jpg"
        (some "train/Common")).new_ml_key =
        (firstNonEmptyClassification r).map fun c => fld ++ "/" ++ c :=
  class_resolution_precedence.2 "S01E02" "S01_E02"
    "https://s3.us-west-2.amazonaws.com/media.angel-nft.com/tuttle_twins/s01e02/default_eng/v1/frames/thumbnails/"
    (List.replicate 101 ⟨"TT_S01_E02_FRM-00-00-08-11", "Common", "", ""⟩)
    (List.replicate 101 ⟨"TT_S01_E02_FRM-00-00-08-11", "Common", "", ""⟩)
    ["train"]
    [⟨"TT_S01_E02_FRM-00-00-08-11",
      "tuttle_twins/s01e02/default_eng/v1/frames/thumbnails/TT_S01_E02_FRM-00-00-08-11.jpg",
      some "train/Common"⟩]
    (by decide) 0 _ (by decide)

/-- C9 counterexample: a sampled row whose three classification cells
are all empty is still emitted by the provider - with `new_ml_key = none`,
i.e. an absent class, contradicting the claim that no emitted record has
a null class. -/
theorem provider_emits_null_class_record :
    find_google_episode_keys_df "S01E02" "S01_E02"
      "https://s3.us-west-2.amazonaws.com/media.angel-nft.com/tuttle_twins/s01e02/default_eng/v1/frames/thumbnails/"
      (List.replicate 101 ⟨"TT_S01_E02_FRM-00-00-08-11", "", "", ""⟩)
      (List.replicate 101 ⟨"TT_S01_E02_FRM-00-00-08-11", "", "", ""⟩)
      ["train"] =
      some [⟨"TT_S01_E02_FRM-00-00-08-11",
        "tuttle_twins/s01e02/default_eng/v1/frames/thumbnails/TT_S01_E02_FRM-00-00-08-11.jpg",
        none⟩] := by
  decide

theorem pyRound_le_self (n : Nat) : pyRound n 200 ≤ n := by
  have hdm := Nat.div_add_mod n 200
  have hmlt : n % 200 < 200 := Nat.mod_lt n (by norm_num)
  simp only [pyRound]
  split_ifs <;> omega

theorem pyRound_mul_le (n : Nat) : 200 * pyRound n 200 ≤ n + 100 := by
  have hdm := Nat.div_add_mod n 200
  have hmlt : n % 200 < 200 := Nat.mod_lt n (by norm_num)
  simp only [pyRound]
  split_ifs <;> omega

/-- C10: the provider silently subsamples its source.  Over a sheet with
`N` rows, a successful run emits exactly `round(N / 200)` records
(`df.sample(round(len(df) * (1.0 / 200.0)))`, line 108); since
`200 * round(N / 200) <= N + 100`, at least `(199 * N - 100) / 200` of
the `N` classified rows - roughly 99.5 percent - are absent from desired
state on any given run. -/
theorem provider_subsamples_1_in_200 (episode_id split_episode_id url : String)
    (sheet_rows shuffled : List SheetRow) (folders : List String)
    (G : List GRow)
    (hperm : shuffled.Perm sheet_rows)
    (hfold : folders.length =
      (shuffled.take (pyRound sheet_rows.length 200)).length)
    (hfind : find_google_episode_keys_df episode_id split_episode_id url
      sheet_rows shuffled folders = some G) :
    G.length = pyRound sheet_rows.length 200 ∧
    200 * G.length ≤ sheet_rows.length + 100 ∧
    199 * sheet_rows.length ≤ 200 * (sheet_rows.length - G.length) + 100 := by
  have hlen : G.length = pyRound sheet_rows.length 200 := by
    simp only [find_google_episode_keys_df] at hfind
    split at hfind
    · exact absurd hfind (by simp)
    · split at hfind
      · exact absurd hfind (by simp)
      · split at hfind
        · exact absurd hfind (by simp)
        · rw [Option.some.injEq] at hfind
          subst hfind
          rw [add_randomized_new_ml_folder_column, List.length_map,
            List.length_zip, ← hfold, min_self, hfold, List.length_take,
            hperm.length_eq]
          exact min_eq_left (pyRound_le_self _)
  refine ⟨hlen, ?_, ?_⟩
  · rw [hlen]; exact pyRound_mul_le sheet_rows.length
  · rw [hlen]
    have h1 := pyRound_mul_le sheet_rows.length
    have h2 := pyRound_le_self sheet_rows.length
    omega

/-- Witness for C10: over a 101-row sheet the provider keeps exactly
`round(101 / 200) = 1` row. -/
theorem provider_subsamples_1_in_200_witness :
    ([⟨"TT_S01_E02_FRM-00-00-08-11",
        "tuttle_twins/s01e02/default_eng/v1/frames/thumbnails/TT_S01_E02_FRM-00-00-08-11.jpg",
        some "train/Common"⟩] : List GRow).length =
      pyRound (List.replicate 101
        (⟨"TT_S01_E02_FRM-00-00-08-11", "Common", "", ""⟩ : SheetRow)).length 200 ∧
    200 * ([⟨"TT_S01_E02_FRM-00-00-08-11",
        "tuttle_twins/s01e02/default_eng/v1/frames/thumbnails/TT_S01_E02_FRM-00-00-08-11.jpg",
        some "train/Common"⟩] : List GRow).length ≤
      (List.replicate 101
        (⟨"TT_S01_E02_FRM-00-00-08-11", "Common", "", ""⟩ : SheetRow)).length + 100 ∧
    199 * (List.replicate 101
        (⟨"TT_S01_E02_FRM-00-00-08-11", "Common", "", ""⟩ : SheetRow)).length ≤
      200 * ((List.replicate 101
        (⟨"TT_S01_E02_FRM-00-00-08-11", "Common", "", ""⟩ : SheetRow)).length -
        ([⟨"TT_S01_E02_FRM-00-00-08-11",
          "tuttle_twins/s01e02/default_eng/v1/frames/thumbnails/TT_S01_E02_FRM-00-00-08-11.jpg",
          some "train/Common"⟩] : List GRow).length) + 100 :=
  provider_subsamples_1_in_200 "S01E02" "S01_E02"
    "https://s3.us-west-2.amazonaws.com/media.angel-nft.com/tuttle_twins/s01e02/default_eng/v1/frames/thumbnails/"
    (List.replicate 101 ⟨"TT_S01_E02_FRM-00-00-08-11", "Common", "", ""⟩)
    (List.replicate 101 ⟨"TT_S01_E02_FRM-00-00-08-11", "Common", "", ""⟩)
    ["train"] _ (List.Perm.refl _) (by decide) (by decide)

/-- C2 counterexample: desired snapshot held fixed, no failures, no
external mutation.  Starting from an empty store, the first run creates
the one desired frame; the second run over the same snapshot still
issues a copy for it (the lines 422-425 fallback re-copies everything
when `J2` is empty), so the second plan is not all-NoOp. -/
theorem second_run_not_noop_counterexample :
    second_run_plan "S01E01" "S01_E01"
        [⟨"TT_S01_E01_FRM-00-00-08-11", "srcurl", some "train/Common"⟩] [] =
      some [S3Op.copyOp "srcurl"
        (render_key "train/Common" "TT_S01_E01_FRM-00-00-08-11")] ∧
    some [S3Op.copyOp "srcurl"
        (render_key "train/Common" "TT_S01_E01_FRM-00-00-08-11")] ≠
      some ([] : List S3Op) := by
  refine ⟨by decide, by decide⟩

/-! ### Helper lemmas for the second-run characterization -/

theorem contains_eq_false_of_not_mem {l : List String} {a : String}
    (h : a ∉ l) : l.contains a = false := by
  cases hc : l.contains a
  · rfl
  · exact absurd (List.elem_iff.mp hc) h

/-- Rendering is injective on well-formed ml-keys and frames. -/
theorem render_key_inj {m1 f1 m2 f2 : String}
    (h1 : MLKeyWF m1) (hf1 : sepFree f1 = true)
    (h2 : MLKeyWF m2) (hf2 : sepFree f2 = true)
    (heq : render_key m1 f1 = render_key m2 f2) : m1 = m2 ∧ f1 = f2 := by
  obtain ⟨a1, b1, rfl, ha1, hb1⟩ := h1
  obtain ⟨a2, b2, rfl, ha2, hb2⟩ := h2
  have e1 := split_key_render_key a1 b1 f1 ha1 hb1 hf1
  have e2 := split_key_render_key a2 b2 f2 ha2 hb2 hf2
  rw [heq] at e1
  have h := e1.symm.trans e2
  simp only [Option.some.injEq, KeyRow.mk.injEq] at h
  obtain ⟨hfo, hcl, hfr, -⟩ := h
  exact ⟨by rw [hfo, hcl], hfr⟩

/-- A well-formed frame is separator-free. -/
theorem FrameWF.sepFree {split fr : String} (h : FrameWF split fr) :
    CreateManifests.sepFree fr = true := h.1

/-- A well-formed ml-key contains no `.` character. -/
theorem MLKeyWF.no_dot {m : String} (h : MLKeyWF m) : '.' ∉ m.data := by
  obtain ⟨a, b, rfl, ha, hb⟩ := h
  intro hmem
  have hd : (a ++ "/" ++ b).data = (a.data ++ ['/']) ++ b.data := rfl
  rw [hd] at hmem
  rcases List.mem_append.mp hmem with hmem | hmem
  · rcases List.mem_append.mp hmem with hmem | hmem
    · have := sepFree_chars ha '.' hmem
      simp [isKeySep] at this
    · exact absurd hmem (by decide)
  · have := sepFree_chars hb '.' hmem
    simp [isKeySep] at this

/-- A well-formed ml-key is never equal to a full rendered key (the
rendered key contains a `.`). -/
theorem mlkey_ne_render_key {m : String} (hm : MLKeyWF m) (m' fr' : String) :
    m ≠ render_key m' fr' := by
  intro he
  apply hm.no_dot
  rw [he, renderKeyData]
  exact List.mem_append.mpr (Or.inr (List.mem_cons_self _ _))

/-- The `egrep` filter accepts every key rendered from a well-formed
frame of the scanned episode. -/
theorem egrep_render_key (split m fr : String) (hfr : FrameWF split fr) :
    egrep_episode_key split (render_key m fr) = true := by
  obtain ⟨-, s, rfl, hs⟩ := hfr
  have hsd : s.data ≠ [] := fun h => hs (String.ext h)
  cases hcd : s.data with
  | nil => exact absurd hcd hsd
  | cons c t =>
    unfold egrep_episode_key
    have e : (render_key m ("TT_" ++ split ++ "_FRM-" ++ s)).data =
        (("tuttle_twins/ML/".data ++ m.data) ++ ['/']) ++
          (("TT_" ++ split ++ "_FRM-").data ++ (c :: (t ++ '.' :: jpgChars))) := by
      rw [renderKeyData]
      have hd : ("TT_" ++ split ++ "_FRM-" ++ s).data =
          ("TT_" ++ split ++ "_FRM-").data ++ s.data := rfl
      rw [hd, hcd]
      simp only [List.append_assoc, List.cons_append]
    rw [e]
    exact egrepFrameMatchAux_of_decomp _ _ c _
      (hasSubstr_tail_self _ t (by decide))

theorem mapM_eq_some_map {α β : Type} (f : α → Option β) (l : List α) (d : β)
    (h : ∀ a ∈ l, (f a).isSome = true) :
    l.mapM f = some (l.map fun a => (f a).getD d) := by
  induction l with
  | nil => rfl
  | cons a l ih =>
    have ha := h a (List.mem_cons_self a l)
    obtain ⟨b, hb⟩ := Option.isSome_iff_exists.mp ha
    rw [List.mapM_cons, hb, ih (fun x hx => h x (List.mem_cons_of_mem a hx))]
    simp [hb]

/-- Scanning a store of keys rendered from well-formed pairs
`(ml_key, img_frame)` succeeds and returns exactly those pairs as rows,
in store order. -/
theorem scanC_rendered (episode_id split : String)
    (pairs : List (String × String))
    (h : ∀ p ∈ pairs, MLKeyWF p.1 ∧ FrameWF split p.2) :
    scanC episode_id split (pairs.map fun p => render_key p.1 p.2) =
      some (pairs.map fun p => (⟨p.2, some p.1⟩ : CRow)) := by
  have hfilt : (pairs.map fun p => render_key p.1 p.2).filter
      (fun k => egrep_episode_key split k) =
      pairs.map fun p => render_key p.1 p.2 := by
    apply List.filter_eq_self.mpr
    intro k hk
    obtain ⟨p, hp, rfl⟩ := List.mem_map.mp hk
    exact egrep_render_key split p.1 p.2 (h p hp).2
  have hsplit : ∀ p ∈ pairs,
      split_key (render_key p.1 p.2) ≠ none ∧
      ((split_key (render_key p.1 p.2)).getD
        ⟨none, none, none, none, none⟩).img_frame = some p.2 ∧
      ((split_key (render_key p.1 p.2)).getD
        ⟨none, none, none, none, none⟩).ml_key = some p.1 := by
    intro p hp
    obtain ⟨⟨a, b, hm, ha, hb⟩, hfr⟩ := h p hp
    have hr := split_key_render_key a b p.2 ha hb hfr.sepFree
    rw [← hm] at hr
    rw [hr]
    exact ⟨by simp, rfl, by simp [hm]⟩
  have hfind : s3_find_episode_jpg_keys_df episode_id split
      (pairs.map fun p => render_key p.1 p.2) =
      some (pairs.map fun p => (⟨episode_id, some p.2, some p.1⟩ : ScanRow)) := by
    cases hpairs : pairs with
    | nil => rfl
    | cons p0 ps =>
      rw [← hpairs]
      have hne : ¬ (pairs.map fun p => render_key p.1 p.2).length = 0 := by
        rw [List.length_map, hpairs]
        simp
      have hmapM : (pairs.map fun p => render_key p.1 p.2).mapM split_key =
          some ((pairs.map fun p => render_key p.1 p.2).map fun k =>
            (split_key k).getD ⟨none, none, none, none, none⟩) := by
        apply mapM_eq_some_map
        intro k hk
        obtain ⟨p, hp, rfl⟩ := List.mem_map.mp hk
        have h1 := (hsplit p hp).1
        cases hsk : split_key (render_key p.1 p.2)
        · exact absurd hsk h1
        · rfl
      simp only [s3_find_episode_jpg_keys_df, hfilt, if_neg hne, hmapM,
        List.map_map]
      split
      · rw [Option.some.injEq]
        apply List.map_congr_left
        intro p hp
        obtain ⟨-, hfr, hml⟩ := hsplit p hp
        simp only [Function.comp]
        rw [ScanRow.mk.injEq]
        exact ⟨rfl, hfr, hml⟩
      · next hlen =>
        exfalso
        apply hlen
        rw [List.length_eq_zero]
        apply List.filter_eq_nil.mpr
        intro r hr
        obtain ⟨p, -, rfl⟩ := List.mem_map.mp hr
        simp [Function.comp]
  rw [scanC, hfind]
  rw [Option.map_some']
  rw [Option.some.injEq, List.map_map]
  apply List.map_congr_left
  intro p hp
  rfl

theorem applyOps_append (store : List String) (A B : List S3Op) :
    applyOps store (A ++ B) = applyOps (applyOps store A) B :=
  List.foldl_append _ _ _ _

theorem applyOps_deletes (keys : List String) (store : List String) :
    applyOps store (keys.map S3Op.deleteOp) =
      store.filter fun k => !(keys.contains k) := by
  induction keys generalizing store with
  | nil =>
    simp only [List.map_nil, applyOps, List.foldl_nil]
    have : ∀ k : String, (!(([] : List String).contains k)) = true := by
      intro k; rfl
    rw [List.filter_eq_self.mpr fun a _ => this a]
  | cons k ks ih =>
    simp only [List.map_cons, applyOps, List.foldl_cons] at *
    rw [show applyOp store (S3Op.deleteOp k) =
      store.filter (fun x => !(x == k)) from rfl]
    rw [ih]
    rw [List.filter_filter]
    apply List.filter_congr
    intro x _
    rw [List.contains_cons, Bool.not_or, Bool.and_comm]

theorem applyOps_copies_new {α : Type} (f g : α → String) (l : List α)
    (store : List String)
    (hnew : ∀ a ∈ l, g a ∉ store)
    (hnodup : (l.map g).Nodup) :
    applyOps store (l.map fun a => S3Op.copyOp (f a) (g a)) =
      store ++ l.map g := by
  induction l generalizing store with
  | nil => simp [applyOps]
  | cons a l ih =>
    simp only [List.map_cons, applyOps, List.foldl_cons] at *
    rw [List.nodup_cons] at hnodup
    have hna : store.contains (g a) = false :=
      contains_eq_false_of_not_mem (hnew a (List.mem_cons_self a l))
    rw [show applyOp store (S3Op.copyOp (f a) (g a)) =
      if store.contains (g a) then store else store ++ [g a] from rfl]
    rw [hna]
    simp only [Bool.false_eq_true, if_false]
    have hnew2 : ∀ x ∈ l, g x ∉ store ++ [g a] := by
      intro x hx hmem
      rcases List.mem_append.mp hmem with hmem | hmem
      · exact hnew x (List.mem_cons_of_mem a hx) hmem
      · rcases List.mem_singleton.mp hmem with he
        exact hnodup.1 (he ▸ List.mem_map_of_mem g hx)
    rw [ih (store ++ [g a]) hnew2 hnodup.2]
    simp

theorem applyOps_copies_present {α : Type} (f g : α → String) (l : List α)
    (store : List String)
    (hold : ∀ a ∈ l, g a ∈ store) :
    applyOps store (l.map fun a => S3Op.copyOp (f a) (g a)) = store := by
  induction l with
  | nil => simp [applyOps]
  | cons a l ih =>
    simp only [List.map_cons, applyOps, List.foldl_cons] at *
    rw [show applyOp store (S3Op.copyOp (f a) (g a)) =
      if store.contains (g a) then store else store ++ [g a] from rfl]
    have : store.contains (g a) = true :=
      List.elem_iff.mpr (hold a (List.mem_cons_self a l))
    rw [this]
    simp only [if_true]
    exact ih fun x hx => hold x (List.mem_cons_of_mem a hx)

/-! ### Derived description of one run (analysis helpers)

The following definitions are not part of the source; they name the
values the pipeline provably computes on well-formed scanned states, and
are used only to state and prove the run characterization. -/

/-- The desired `new_ml_key` the `J1` left join attaches to a frame:
the `new_ml_key` of the first `G` row with that frame, `none` when the
frame is absent from `G`. -/
def desired_key (G : List GRow) (fr : String) : Option String :=
  (G.find? fun g => g.img_frame == fr).bind GRow.new_ml_key

/-- The scanned pairs the run leaves untouched: frames whose stored
`ml_key` already equals the desired one. -/
def keep_pairs (G : List GRow) (pairs : List (String × String)) :
    List (String × String) :=
  pairs.filter fun p => some p.1 == desired_key G p.2

/-- The scanned pairs the run moves: desired key present and different
from the stored one. -/
def move_pairs (G : List GRow) (pairs : List (String × String)) :
    List (String × String) :=
  pairs.filter fun p =>
    (desired_key G p.2).isSome && !(some p.1 == desired_key G p.2)

/-- The location of each moved frame after its move. -/
def moved_pairs (G : List GRow) (pairs : List (String × String)) :
    List (String × String) :=
  (move_pairs G pairs).map fun p => ((desired_key G p.2).getD "", p.2)

/-- Desired rows with a class whose frame is not in the scanned state. -/
def missing_rows (G : List GRow) (pairs : List (String × String)) :
    List GRow :=
  G.filter fun g =>
    g.new_ml_key.isSome && !((pairs.map Prod.snd).contains g.img_frame)

/-- The pairs created for the missing desired rows. -/
def missing_pairs (G : List GRow) (pairs : List (String × String)) :
    List (String × String) :=
  (missing_rows G pairs).map fun g => (g.new_ml_key.getD "", g.img_frame)

/-- The scanned state after one full no-failure run. -/
def run1_pairs (G : List GRow) (pairs : List (String × String)) :
    List (String × String) :=
  (keep_pairs G pairs ++ moved_pairs G pairs) ++ missing_pairs G pairs

/-- The rows `scanC` returns for a store rendered from `pairs`. -/
def scanned_rows (pairs : List (String × String)) : List CRow :=
  pairs.map fun p => ⟨p.2, some p.1⟩

/-- The `J1` row the left join produces for a scanned pair. -/
def j1_row_of (G : List GRow) (p : String × String) : J1Row :=
  ⟨p.2, some p.1, (G.find? fun g => g.img_frame == p.2).map GRow.img_src,
    desired_key G p.2⟩

theorem mkJ1_scanned (G : List GRow) (pairs : List (String × String))
    (h : pairs ≠ []) :
    mkJ1 G (scanned_rows pairs) = pairs.map (j1_row_of G) := by
  unfold mkJ1 scanned_rows
  rw [if_pos (by
    rw [List.length_map]
    exact List.length_pos.mpr h)]
  rw [List.map_map]
  apply List.map_congr_left
  intro p hp
  simp only [Function.comp]
  cases hf : G.find? fun g => g.img_frame == p.2 <;>
    simp [j1_row_of, desired_key, hf]

theorem j1_filtered_scanned (G : List GRow) (pairs : List (String × String))
    (h : pairs ≠ []) :
    j1_filtered G (scanned_rows pairs) =
      (pairs.filter fun p => !(some p.1 == desired_key G p.2)).map
        (j1_row_of G) := by
  unfold j1_filtered
  rw [mkJ1_scanned G pairs h, List.filter_map]
  refine congrArg (List.map (j1_row_of G)) (List.filter_congr ?_)
  intro p _
  simp only [Function.comp, j1_row_of]
  cases hd : desired_key G p.2 <;> simp [pandasNe]

theorem j1_del_scanned (G : List GRow) (pairs : List (String × String))
    (h : pairs ≠ []) :
    j1_del G (scanned_rows pairs) =
      (pairs.filter fun p => (desired_key G p.2).isNone).map (j1_row_of G) := by
  unfold j1_del
  rw [j1_filtered_scanned G pairs h, List.filter_map, List.filter_filter]
  congr 1
  apply List.filter_congr
  intro p _
  simp only [Function.comp, j1_row_of]
  cases hd : desired_key G p.2 <;> simp

theorem del_keys_scanned (G : List GRow) (pairs : List (String × String))
    (h : pairs ≠ []) :
    del_keys G (scanned_rows pairs) =
      (pairs.filter fun p => (desired_key G p.2).isNone).map
        fun p => render_key p.1 p.2 := by
  unfold del_keys
  rw [j1_del_scanned G pairs h, List.map_map]
  rfl

/-- Every deleted key is a rendered key (hence never equal to a bare
well-formed ml-key, which the line 330 `isin` filter compares it to). -/
theorem del_keys_are_rendered (G : List GRow) (C : List CRow) :
    ∀ k ∈ del_keys G C, ∃ m fr, k = render_key m fr := by
  intro k hk
  obtain ⟨r, -, rfl⟩ := List.mem_map.mp hk
  exact ⟨_, _, rfl⟩

theorem j1_after_del_eq_filtered (G : List GRow) (C : List CRow)
    (hwf : ∀ c ∈ C, ∀ m, c.ml_key = some m → MLKeyWF m) :
    j1_after_del G C = j1_filtered G C := by
  unfold j1_after_del
  split
  · apply List.filter_eq_self.mpr
    intro r hr
    have hrm : r ∈ mkJ1 G C := mem_j1_filtered_mkJ1 hr
    have hml0 : r.ml_key = none ∨ ∃ c ∈ C, r.ml_key = c.ml_key := by
      unfold mkJ1 at hrm
      split at hrm
      · obtain ⟨c, hc, rfl⟩ := List.mem_map.mp hrm
        refine Or.inr ⟨c, hc, ?_⟩
        cases G.find? fun g => g.img_frame == c.img_frame <;> rfl
      · obtain ⟨g, -, rfl⟩ := List.mem_map.mp hrm
        exact Or.inl rfl
    have hml : r.ml_key = none ∨ ∃ m, r.ml_key = some m ∧ MLKeyWF m := by
      rcases hml0 with hml0 | ⟨c, hc, hml0⟩
      · exact Or.inl hml0
      · cases hcm : c.ml_key with
        | none => exact Or.inl (hml0.trans hcm)
        | some m => exact Or.inr ⟨m, hml0.trans hcm, hwf c hc m hcm⟩
    rcases hml with hml | ⟨m, hml, hmwf⟩
    · rw [hml]
    · rw [hml]
      have hcf : (del_keys G C).contains m = false := by
        apply contains_eq_false_of_not_mem
        intro hmem
        obtain ⟨m', fr', he⟩ := del_keys_are_rendered G C m hmem
        exact mlkey_ne_render_key hmwf m' fr' he
      show (!(del_keys G C).contains m) = true
      rw [hcf]
      rfl
  · rfl

theorem j1_mv_scanned (G : List GRow) (pairs : List (String × String))
    (h : pairs ≠ [])
    (hwf : ∀ p ∈ pairs, MLKeyWF p.1) :
    j1_mv G (scanned_rows pairs) = (move_pairs G pairs).map (j1_row_of G) := by
  unfold j1_mv
  rw [j1_after_del_eq_filtered G (scanned_rows pairs) (by
    intro c hc m hcm
    obtain ⟨p, hp, rfl⟩ := List.mem_map.mp hc
    rw [Option.some.injEq] at hcm
    exact hcm ▸ hwf p hp)]
  rw [j1_filtered_scanned G pairs h, List.filter_map, List.filter_filter]
  unfold move_pairs
  refine congrArg (List.map (j1_row_of G)) (List.filter_congr ?_)
  intro p _
  simp only [Function.comp, j1_row_of]
  cases hd : desired_key G p.2 <;> simp

theorem mv_src_keys_scanned (G : List GRow) (pairs : List (String × String))
    (h : pairs ≠ [])
    (hwf : ∀ p ∈ pairs, MLKeyWF p.1) :
    mv_src_keys G (scanned_rows pairs) =
      (move_pairs G pairs).map fun p => render_key p.1 p.2 := by
  unfold mv_src_keys
  rw [j1_mv_scanned G pairs h hwf, List.map_map]
  rfl

theorem mv_dst_keys_scanned (G : List GRow) (pairs : List (String × String))
    (h : pairs ≠ [])
    (hwf : ∀ p ∈ pairs, MLKeyWF p.1) :
    mv_dst_keys G (scanned_rows pairs) =
      (move_pairs G pairs).map
        fun p => render_key ((desired_key G p.2).getD "") p.2 := by
  unfold mv_dst_keys
  rw [j1_mv_scanned G pairs h hwf, List.map_map]
  rfl

theorem desired_key_wf {G : List GRow}
    (hGwf : ∀ g ∈ G, ∀ m, g.new_ml_key = some m → MLKeyWF m)
    {fr n : String} (h : desired_key G fr = some n) : MLKeyWF n := by
  unfold desired_key at h
  cases hf : G.find? fun g => g.img_frame == fr with
  | none => rw [hf] at h; simp at h
  | some g =>
    rw [hf] at h
    exact hGwf g (List.mem_of_find?_eq_some hf) n h

theorem pair_eq_of_render_eq (split : String) {p q : String × String}
    (hp : MLKeyWF p.1 ∧ FrameWF split p.2)
    (hq : MLKeyWF q.1 ∧ FrameWF split q.2)
    (he : render_key p.1 p.2 = render_key q.1 q.2) : p = q := by
  obtain ⟨h1, h2⟩ := render_key_inj hp.1 hp.2.sepFree hq.1 hq.2.sepFree he
  exact Prod.ext h1 h2

theorem mem_render_map (split : String) (l : List (String × String))
    (p : String × String)
    (hlwf : ∀ q ∈ l, MLKeyWF q.1 ∧ FrameWF split q.2)
    (hpm : MLKeyWF p.1) (hpf : FrameWF split p.2) :
    (render_key p.1 p.2 ∈ l.map fun q => render_key q.1 q.2) ↔ p ∈ l := by
  constructor
  · intro h
    obtain ⟨q, hq, he⟩ := List.mem_map.mp h
    have := pair_eq_of_render_eq split (hlwf q hq) ⟨hpm, hpf⟩ he
    exact this ▸ hq
  · intro h
    exact List.mem_map_of_mem _ h

theorem mem_mkJ1_empty_scan {G : List GRow} {r : J1Row}
    (hr : r ∈ mkJ1 G ([] : List CRow)) : r.ml_key = none := by
  unfold mkJ1 at hr
  rw [if_neg (by simp)] at hr
  obtain ⟨g, -, rfl⟩ := List.mem_map.mp hr
  rfl

theorem dm_phases_empty_scan (G : List GRow) :
    delete_phase_ops G (scanned_rows []) = [] ∧
      move_phase_ops G (scanned_rows []) = [] := by
  have hdel : j1_del G (scanned_rows []) = [] := by
    apply List.filter_eq_nil.mpr
    intro r hr
    have := mem_mkJ1_empty_scan (mem_j1_filtered_mkJ1 hr)
    simp [this]
  have hmv : j1_mv G (scanned_rows []) = [] := by
    apply List.filter_eq_nil.mpr
    intro r hr
    have := mem_mkJ1_empty_scan
      (mem_j1_filtered_mkJ1 (mem_j1_after_del_filtered hr))
    simp [this]
  constructor
  · rw [delete_phase_ops, hdel]
    rfl
  · rw [move_phase_ops, hmv]
    rfl

/-- Effect of the delete phase on any store: the `del_keys` are removed
(also when the phase is skipped because `J1_del` is empty). -/
theorem applyOps_delete_phase (G : List GRow) (C : List CRow)
    (store : List String) :
    applyOps store (delete_phase_ops G C) =
      store.filter fun k => !((del_keys G C).contains k) := by
  unfold delete_phase_ops
  split
  · exact applyOps_deletes _ _
  · next hlen =>
    have h0 : j1_del G C = [] := by
      rcases List.eq_nil_or_concat (j1_del G C) with h | ⟨l, a, h⟩
      · exact h
      · exfalso; apply hlen; rw [h]; simp
    have hdk : del_keys G C = [] := by rw [del_keys, h0]; rfl
    rw [hdk]
    show store = _
    rw [List.filter_eq_self.mpr]
    intro a _
    rfl

/-- Effect of the delete-and-move phases of one run on the rendered
store: stale pairs disappear and moved pairs land at their destination. -/
theorem store_after_dm (split : String) (G : List GRow)
    (pairs : List (String × String))
    (hGwf : ∀ g ∈ G, ∀ m, g.new_ml_key = some m → MLKeyWF m)
    (hpwf : ∀ p ∈ pairs, MLKeyWF p.1 ∧ FrameWF split p.2)
    (hpnodup : (pairs.map Prod.snd).Nodup) :
    applyOps (pairs.map fun p => render_key p.1 p.2)
        (delete_phase_ops G (scanned_rows pairs) ++
          move_phase_ops G (scanned_rows pairs)) =
      (keep_pairs G pairs ++ moved_pairs G pairs).map
        fun p => render_key p.1 p.2 := by
  cases hpc : pairs with
  | nil =>
    obtain ⟨h1, h2⟩ := dm_phases_empty_scan G
    rw [h1, h2]
    rfl
  | cons p0 ps =>
    rw [← hpc]
    have hne : pairs ≠ [] := by rw [hpc]; simp
    have hinj : ∀ p ∈ pairs, ∀ q ∈ pairs, p.2 = q.2 → p = q := by
      intro p hp q hq he
      exact List.inj_on_of_nodup_map hpnodup hp hq he
    rw [applyOps_append, applyOps_delete_phase]
    rw [del_keys_scanned G pairs hne]
    -- step 1: the store after the stale deletes
    have hstep1 : ((pairs.map fun p => render_key p.1 p.2).filter fun k =>
        !(((pairs.filter fun p => (desired_key G p.2).isNone).map
          fun p => render_key p.1 p.2).contains k)) =
        (pairs.filter fun p => (desired_key G p.2).isSome).map
          fun p => render_key p.1 p.2 := by
      rw [List.filter_map]
      refine congrArg _ (List.filter_congr ?_)
      intro p hp
      simp only [Function.comp]
      have hmemiff := mem_render_map split
        (pairs.filter fun p => (desired_key G p.2).isNone) p
        (fun q hq => hpwf q (List.mem_filter.mp hq).1) (hpwf p hp).1 (hpwf p hp).2
      cases hd : desired_key G p.2 with
      | none =>
        have hmem : p ∈ pairs.filter fun p => (desired_key G p.2).isNone :=
          List.mem_filter.mpr ⟨hp, by rw [hd]; rfl⟩
        have : ((pairs.filter fun p => (desired_key G p.2).isNone).map
            fun p => render_key p.1 p.2).contains (render_key p.1 p.2) = true :=
          List.elem_iff.mpr (hmemiff.mpr hmem)
        rw [this]
        rfl
      | some n =>
        have hnmem : p ∉ pairs.filter fun p => (desired_key G p.2).isNone := by
          intro hmem
          have := (List.mem_filter.mp hmem).2
          rw [hd] at this
          exact absurd this (by simp)
        have : ((pairs.filter fun p => (desired_key G p.2).isNone).map
            fun p => render_key p.1 p.2).contains (render_key p.1 p.2) = false :=
          contains_eq_false_of_not_mem fun hmem => hnmem (hmemiff.mp hmem)
        rw [this]
        rfl
    rw [hstep1]
    have hml : ∀ p ∈ pairs, MLKeyWF p.1 := fun p hp => (hpwf p hp).1
    have hmvwf : ∀ q ∈ move_pairs G pairs, MLKeyWF q.1 ∧ FrameWF split q.2 :=
      fun q hq => hpwf q (List.mem_filter.mp hq).1
    have hmv_mem : ∀ p, p ∈ move_pairs G pairs ↔
        p ∈ pairs ∧ ((desired_key G p.2).isSome &&
          !(some p.1 == desired_key G p.2)) = true := fun p => List.mem_filter
    have hdst_wf : ∀ q ∈ move_pairs G pairs,
        MLKeyWF ((desired_key G q.2).getD "") ∧ FrameWF split q.2 := by
      intro q hq
      obtain ⟨hqp, hqpred⟩ := (hmv_mem q).mp hq
      rw [Bool.and_eq_true] at hqpred
      obtain ⟨n, hn⟩ := Option.isSome_iff_exists.mp hqpred.1
      rw [hn]
      exact ⟨desired_key_wf hGwf hn, (hpwf q hqp).2⟩
    have hdst_ne_pair : ∀ q ∈ move_pairs G pairs,
        (((desired_key G q.2).getD ""), q.2) ∉ pairs := by
      intro q hq hmem
      obtain ⟨hqp, hqpred⟩ := (hmv_mem q).mp hq
      rw [Bool.and_eq_true] at hqpred
      obtain ⟨n, hn⟩ := Option.isSome_iff_exists.mp hqpred.1
      have he := hinj _ hmem q hqp rfl
      have h1 : (desired_key G q.2).getD "" = q.1 := congrArg Prod.fst he
      rw [hn] at h1
      have := hqpred.2
      rw [hn, ← h1] at this
      simp at this
    unfold move_phase_ops
    split
    · next hguard =>
      rw [mv_src_keys_scanned G pairs hne hml, mv_dst_keys_scanned G pairs hne hml]
      rw [List.zipWith_map, List.zipWith_same]
      rw [applyOps_append]
      have hcopies := applyOps_copies_new
        (fun p : String × String => render_key p.1 p.2)
        (fun p : String × String =>
          render_key ((desired_key G p.2).getD "") p.2)
        (move_pairs G pairs)
        ((pairs.filter fun p => (desired_key G p.2).isSome).map
          fun p => render_key p.1 p.2)
        (by
          intro q hq hmem
          have hiff := mem_render_map split
            (pairs.filter fun p => (desired_key G p.2).isSome)
            (((desired_key G q.2).getD ""), q.2)
            (fun x hx => hpwf x (List.mem_filter.mp hx).1)
            (hdst_wf q hq).1 (hdst_wf q hq).2
          have := (List.mem_filter.mp (hiff.mp hmem)).1
          exact hdst_ne_pair q hq this)
        (by
          have hmvnodup : (move_pairs G pairs).Nodup :=
            List.Nodup.sublist (List.filter_sublist pairs)
              (List.Nodup.of_map Prod.snd hpnodup)
          refine (List.nodup_map_iff_inj_on hmvnodup).mpr ?_
          intro x hx y hy he
          have h2 := (render_key_inj (hdst_wf x hx).1 (hdst_wf x hx).2.sepFree
            (hdst_wf y hy).1 (hdst_wf y hy).2.sepFree he).2
          exact hinj x (List.mem_filter.mp hx).1 y (List.mem_filter.mp hy).1 h2)
      simp only at hcopies ⊢
      rw [hcopies]
      rw [applyOps_deletes]
      rw [List.filter_append]
      have hkeep : ((pairs.filter fun p => (desired_key G p.2).isSome).map
          (fun p => render_key p.1 p.2)).filter (fun k =>
            !(((move_pairs G pairs).map fun p => render_key p.1 p.2).contains k)) =
          (keep_pairs G pairs).map fun p => render_key p.1 p.2 := by
        rw [List.filter_map, List.filter_filter]
        unfold keep_pairs
        refine congrArg _ (List.filter_congr ?_)
        intro p hp
        simp only [Function.comp]
        have hmemiff := mem_render_map split (move_pairs G pairs) p hmvwf
          (hpwf p hp).1 (hpwf p hp).2
        cases hd : desired_key G p.2 with
        | none => simp
        | some n =>
          cases hb : (some p.1 == some n) with
          | true =>
            have hnm : p ∉ move_pairs G pairs := by
              intro hm
              have h2 := ((hmv_mem p).mp hm).2
              rw [Bool.and_eq_true] at h2
              rw [hd, hb] at h2
              simpa using h2.2
            have hc : (((move_pairs G pairs).map
                fun p => render_key p.1 p.2).contains (render_key p.1 p.2)) = false :=
              contains_eq_false_of_not_mem fun hm => hnm (hmemiff.mp hm)
            rw [hc]
            rfl
          | false =>
            have hm : p ∈ move_pairs G pairs := by
              refine (hmv_mem p).mpr ⟨hp, ?_⟩
              rw [hd, hb]
              rfl
            have hc : (((move_pairs G pairs).map
                fun p => render_key p.1 p.2).contains (render_key p.1 p.2)) = true :=
              List.elem_iff.mpr (hmemiff.mpr hm)
            rw [hc]
            rfl
      have hmoved : (((move_pairs G pairs).map fun p =>
          render_key ((desired_key G p.2).getD "") p.2).filter (fun k =>
            !(((move_pairs G pairs).map fun p => render_key p.1 p.2).contains k))) =
          (moved_pairs G pairs).map fun p => render_key p.1 p.2 := by
        have hall : (((move_pairs G pairs).map fun p =>
            render_key ((desired_key G p.2).getD "") p.2).filter (fun k =>
              !(((move_pairs G pairs).map fun p => render_key p.1 p.2).contains k))) =
            ((move_pairs G pairs).map fun p =>
              render_key ((desired_key G p.2).getD "") p.2) := by
          apply List.filter_eq_self.mpr
          intro k hk
          obtain ⟨q, hq, rfl⟩ := List.mem_map.mp hk
          have hiff := mem_render_map split (move_pairs G pairs)
            (((desired_key G q.2).getD ""), q.2) hmvwf
            (hdst_wf q hq).1 (hdst_wf q hq).2
          have hc : (((move_pairs G pairs).map
              fun p => render_key p.1 p.2).contains
                (render_key ((desired_key G q.2).getD "") q.2)) = false := by
            apply contains_eq_false_of_not_mem
            intro hm
            exact hdst_ne_pair q hq
              (List.mem_filter.mp (hiff.mp hm)).1
          rw [hc]
          rfl
        rw [hall]
        unfold moved_pairs
        rw [List.map_map]
        rfl
      rw [hkeep, hmoved, ← List.map_append]
    · next hguard =>
      have hmv0 : move_pairs G pairs = [] := by
        have h1 := j1_mv_scanned G pairs hne hml
        rcases List.eq_nil_or_concat (move_pairs G pairs) with h | ⟨l, a, h⟩
        · exact h
        · exfalso
          apply hguard
          rw [h1, h]
          simp
      have hkeep2 : (pairs.filter fun p => (desired_key G p.2).isSome) =
          keep_pairs G pairs := by
        unfold keep_pairs
        apply List.filter_congr
        intro p hp
        cases hd : desired_key G p.2 with
        | none => rfl
        | some n =>
          cases hb : (some p.1 == some n) with
          | true => rfl
          | false =>
            exfalso
            have hm : p ∈ move_pairs G pairs := by
              apply List.mem_filter.mpr
              refine ⟨hp, ?_⟩
              rw [hd, hb]
              rfl
            rw [hmv0] at hm
            exact absurd hm (by simp)
      show (pairs.filter fun p => (desired_key G p.2).isSome).map
          (fun p => render_key p.1 p.2) = _
      rw [hkeep2]
      unfold moved_pairs
      rw [hmv0]
      simp

/-- `desired_key` at the frame of a `G` row is the row's own
`new_ml_key` when the desired frames are unique. -/
theorem desired_key_of_mem {G : List GRow}
    (hGnodup : (G.map GRow.img_frame).Nodup) {g : GRow} (hg : g ∈ G) :
    desired_key G g.img_frame = g.new_ml_key := by
  unfold desired_key
  cases hf : G.find? fun g2 => g2.img_frame == g.img_frame with
  | none =>
    exfalso
    have := List.find?_eq_none.mp hf g hg
    simp at this
  | some g2 =>
    have h2 := beq_iff_eq.mp
      (List.find?_some (p := fun g2 : GRow => g2.img_frame == g.img_frame) hf)
    have := List.inj_on_of_nodup_map hGnodup
      (List.mem_of_find?_eq_some hf) hg h2
    rw [this]
    rfl

/-- Every pair left by the delete-and-move phases carries exactly its
desired key. -/
theorem dm_pairs_desired (G : List GRow) (pairs : List (String × String)) :
    ∀ p ∈ keep_pairs G pairs ++ moved_pairs G pairs,
      desired_key G p.2 = some p.1 := by
  intro p hp
  rcases List.mem_append.mp hp with hp | hp
  · have := (List.mem_filter.mp hp).2
    exact (beq_iff_eq.mp this).symm
  · obtain ⟨q, hq, rfl⟩ := List.mem_map.mp hp
    have := (List.mem_filter.mp hq).2
    rw [Bool.and_eq_true] at this
    obtain ⟨n, hn⟩ := Option.isSome_iff_exists.mp this.1
    rw [hn]
    rfl

theorem dm_pairs_wf (split : String) (G : List GRow)
    (pairs : List (String × String))
    (hGwf : ∀ g ∈ G, ∀ m, g.new_ml_key = some m → MLKeyWF m)
    (hpwf : ∀ p ∈ pairs, MLKeyWF p.1 ∧ FrameWF split p.2) :
    ∀ p ∈ keep_pairs G pairs ++ moved_pairs G pairs,
      MLKeyWF p.1 ∧ FrameWF split p.2 := by
  intro p hp
  rcases List.mem_append.mp hp with hp | hp
  · exact hpwf p (List.mem_filter.mp hp).1
  · obtain ⟨q, hq, rfl⟩ := List.mem_map.mp hp
    have hqp := (List.mem_filter.mp hq).1
    have hpred := (List.mem_filter.mp hq).2
    rw [Bool.and_eq_true] at hpred
    obtain ⟨n, hn⟩ := Option.isSome_iff_exists.mp hpred.1
    rw [hn]
    exact ⟨desired_key_wf hGwf hn, (hpwf q hqp).2⟩

theorem dm_pairs_frames_sub (G : List GRow) (pairs : List (String × String)) :
    ∀ p ∈ keep_pairs G pairs ++ moved_pairs G pairs, p.2 ∈ pairs.map Prod.snd := by
  intro p hp
  rcases List.mem_append.mp hp with hp | hp
  · exact List.mem_map_of_mem _ (List.mem_filter.mp hp).1
  · obtain ⟨q, hq, rfl⟩ := List.mem_map.mp hp
    show q.2 ∈ pairs.map Prod.snd
    exact List.mem_map_of_mem _ (List.mem_filter.mp hq).1

theorem dm_pairs_frames_nodup (G : List GRow)
    (pairs : List (String × String))
    (hpnodup : (pairs.map Prod.snd).Nodup) :
    ((keep_pairs G pairs ++ moved_pairs G pairs).map Prod.snd).Nodup := by
  have hinj : ∀ p ∈ pairs, ∀ q ∈ pairs, p.2 = q.2 → p = q :=
    fun p hp q hq he => List.inj_on_of_nodup_map hpnodup hp hq he
  rw [List.map_append, List.nodup_append]
  refine ⟨?_, ?_, ?_⟩
  · exact List.Nodup.sublist
      (List.Sublist.map _ (List.filter_sublist pairs)) hpnodup
  · unfold moved_pairs
    rw [List.map_map]
    have : ((move_pairs G pairs).map
        ((fun p : String × String => p.2) ∘
          fun p => ((desired_key G p.2).getD "", p.2))) =
        (move_pairs G pairs).map Prod.snd := by
      apply List.map_congr_left
      intro q _
      rfl
    rw [this]
    exact List.Nodup.sublist
      (List.Sublist.map _ (List.filter_sublist pairs)) hpnodup
  · rw [List.disjoint_left]
    intro fr hfr1 hfr2
    obtain ⟨p, hp, rfl⟩ := List.mem_map.mp hfr1
    have hpk := (List.mem_filter.mp hp).2
    unfold moved_pairs at hfr2
    rw [List.map_map] at hfr2
    obtain ⟨q, hq, he⟩ := List.mem_map.mp hfr2
    have hqm := (List.mem_filter.mp hq).2
    have hpq : q = p := hinj q (List.mem_filter.mp hq).1 p
      (List.mem_filter.mp hp).1 he
    rw [hpq] at hqm
    rw [Bool.and_eq_true] at hqm
    rw [hpk] at hqm
    simpa using hqm.2

/-- `find?` over scanned rows by frame, hit case. -/
theorem find?_scanned_some (l : List (String × String)) (p : String × String)
    (hnodup : (l.map Prod.snd).Nodup) (hp : p ∈ l) :
    (scanned_rows l).find? (fun c => c.img_frame == p.2) =
      some ⟨p.2, some p.1⟩ := by
  unfold scanned_rows
  rw [List.find?_map]
  have hfind : l.find? ((fun c : CRow => c.img_frame == p.2) ∘
      fun p => (⟨p.2, some p.1⟩ : CRow)) = some p := by
    cases hf : l.find? ((fun c : CRow => c.img_frame == p.2) ∘
        fun p => (⟨p.2, some p.1⟩ : CRow)) with
    | none =>
      exfalso
      have := List.find?_eq_none.mp hf p hp
      simp [Function.comp] at this
    | some q =>
      have h2 := List.find?_some hf
      simp only [Function.comp] at h2
      have h3 := beq_iff_eq.mp h2
      rw [List.inj_on_of_nodup_map hnodup
        (List.mem_of_find?_eq_some hf) hp h3]
  rw [hfind]
  rfl

/-- `find?` over scanned rows by frame, miss case. -/
theorem find?_scanned_none (l : List (String × String)) (fr : String)
    (hfr : fr ∉ l.map Prod.snd) :
    (scanned_rows l).find? (fun c => c.img_frame == fr) = none := by
  apply List.find?_eq_none.mpr
  intro c hc
  obtain ⟨q, hq, rfl⟩ := List.mem_map.mp hc
  intro hbeq
  exact hfr (beq_iff_eq.mp hbeq ▸ List.mem_map_of_mem _ hq)

theorem mkJ2_eq_find (G : List GRow) (C2 : List CRow) :
    mkJ2 G C2 = G.map fun g =>
      match C2.find? (fun c => c.img_frame == g.img_frame) with
      | some c => ⟨g.img_frame, g.new_ml_key, c.ml_key⟩
      | none => ⟨g.img_frame, g.new_ml_key, none⟩ := by
  unfold mkJ2
  split
  · rfl
  · next hlen =>
    have h0 : C2 = [] := by
      rcases List.eq_nil_or_concat C2 with h | ⟨l, a, h⟩
      · exact h
      · exfalso; apply hlen; rw [h]; simp
    subst h0
    rfl

/-- A frame of `pairs` whose desired key is present lands in the
delete-and-move result (either kept or moved). -/
theorem mem_dm_frames_of_desired (G : List GRow)
    (pairs : List (String × String)) (q : String × String) (hq : q ∈ pairs)
    (hqd : (desired_key G q.2).isSome = true) :
    q.2 ∈ (keep_pairs G pairs ++ moved_pairs G pairs).map Prod.snd := by
  cases hb : (some q.1 == desired_key G q.2) with
  | true =>
    have hqk : q ∈ keep_pairs G pairs := List.mem_filter.mpr ⟨hq, hb⟩
    exact List.mem_map_of_mem _ (List.mem_append.mpr (Or.inl hqk))
  | false =>
    have hqm : q ∈ move_pairs G pairs := by
      refine List.mem_filter.mpr ⟨hq, ?_⟩
      rw [hqd, hb]
      rfl
    have h1 : ((desired_key G q.2).getD "", q.2) ∈ moved_pairs G pairs :=
      List.mem_map_of_mem _ hqm
    have h2 : ((desired_key G q.2).getD "", q.2) ∈
        keep_pairs G pairs ++ moved_pairs G pairs :=
      List.mem_append.mpr (Or.inr h1)
    have h3 := List.mem_map_of_mem Prod.snd h2
    exact h3

theorem j2_filtered_scanned_dm (G : List GRow)
    (pairs : List (String × String))
    (hGcl : ∀ g ∈ G, g.new_ml_key.isSome = true)
    (hGnodup : (G.map GRow.img_frame).Nodup)
    (hpnodup : (pairs.map Prod.snd).Nodup) :
    j2_filtered G (scanned_rows (keep_pairs G pairs ++ moved_pairs G pairs)) =
      (missing_rows G pairs).map
        fun g => (⟨g.img_frame, g.new_ml_key, none⟩ : J2Row) := by
  unfold j2_filtered
  rw [mkJ2_eq_find, List.filter_map]
  have hfeq : G.filter ((fun r : J2Row => pandasNe r.new_ml_key r.ml_key) ∘
      fun g => match (scanned_rows
          (keep_pairs G pairs ++ moved_pairs G pairs)).find?
            (fun c => c.img_frame == g.img_frame) with
        | some c => (⟨g.img_frame, g.new_ml_key, c.ml_key⟩ : J2Row)
        | none => (⟨g.img_frame, g.new_ml_key, none⟩ : J2Row)) =
      missing_rows G pairs := by
    unfold missing_rows
    apply List.filter_congr
    intro g hg
    simp only [Function.comp]
    by_cases hin : g.img_frame ∈
        (keep_pairs G pairs ++ moved_pairs G pairs).map Prod.snd
    · obtain ⟨q, hq, hq2⟩ := List.mem_map.mp hin
      have hfind := find?_scanned_some
        (keep_pairs G pairs ++ moved_pairs G pairs) q
        (dm_pairs_frames_nodup G pairs hpnodup) hq
      rw [hq2] at hfind
      rw [hfind]
      have hdq : desired_key G q.2 = some q.1 := dm_pairs_desired G pairs q hq
      rw [hq2] at hdq
      have hnewq : g.new_ml_key = some q.1 := by
        rw [← desired_key_of_mem hGnodup hg, hdq]
      have hfr_pairs : g.img_frame ∈ pairs.map Prod.snd := by
        rw [← hq2]
        exact dm_pairs_frames_sub G pairs q hq
      have hcont : (pairs.map Prod.snd).contains g.img_frame = true :=
        List.elem_iff.mpr hfr_pairs
      rw [hcont, hnewq]
      simp [pandasNe]
    · have hfind := find?_scanned_none
        (keep_pairs G pairs ++ moved_pairs G pairs) g.img_frame hin
      rw [hfind]
      cases hnew : g.new_ml_key with
      | none =>
        have hcl := hGcl g hg
        rw [hnew] at hcl
        exact absurd hcl (by simp)
      | some n =>
        have hfrp : g.img_frame ∉ pairs.map Prod.snd := by
          intro hmem
          apply hin
          obtain ⟨q, hq, hq2⟩ := List.mem_map.mp hmem
          have hqd : (desired_key G q.2).isSome = true := by
            rw [hq2, desired_key_of_mem hGnodup hg, hnew]
            rfl
          rw [← hq2]
          exact mem_dm_frames_of_desired G pairs q hq hqd
        have hcont : (pairs.map Prod.snd).contains g.img_frame = false :=
          contains_eq_false_of_not_mem hfrp
        rw [hcont]
        simp [pandasNe]
  rw [hfeq]
  apply List.map_congr_left
  intro g hg
  have h2 := (List.mem_filter.mp hg).2
  rw [Bool.and_eq_true] at h2
  have hfrp : g.img_frame ∉ pairs.map Prod.snd := by
    intro hmem
    have hcont : (pairs.map Prod.snd).contains g.img_frame = true :=
      List.elem_iff.mpr hmem
    rw [hcont] at h2
    simpa using h2.2
  have hfrdm : g.img_frame ∉
      (keep_pairs G pairs ++ moved_pairs G pairs).map Prod.snd := by
    intro hmem
    obtain ⟨q, hq, hq2⟩ := List.mem_map.mp hmem
    exact hfrp (hq2 ▸ dm_pairs_frames_sub G pairs q hq)
  rw [find?_scanned_none _ _ hfrdm]

theorem find?_G_frame_new {G : List GRow}
    (hGnodup : (G.map GRow.img_frame).Nodup) {g : GRow} (hg : g ∈ G) :
    G.find? (fun g2 => g2.img_frame == g.img_frame &&
      g2.new_ml_key == g.new_ml_key) = some g := by
  cases hf : G.find? (fun g2 => g2.img_frame == g.img_frame &&
      g2.new_ml_key == g.new_ml_key) with
  | none =>
    exfalso
    have := List.find?_eq_none.mp hf g hg
    simp at this
  | some g2 =>
    have h2 := List.find?_some (p := fun g2 : GRow =>
      g2.img_frame == g.img_frame && g2.new_ml_key == g.new_ml_key) hf
    rw [Bool.and_eq_true] at h2
    rw [List.inj_on_of_nodup_map hGnodup (List.mem_of_find?_eq_some hf) hg
      (beq_iff_eq.mp h2.1)]

/-- The copy rows the run emits: all classful desired rows when the
post-move diff `J2` is empty (the lines 422-425 fallback), otherwise the
missing desired rows. -/
def cp_rows (G : List GRow) (pairs : List (String × String)) : List GRow :=
  if (missing_rows G pairs).length = 0
  then G.filter fun g => g.new_ml_key.isSome
  else missing_rows G pairs

theorem j3_cp_scanned_dm (G : List GRow) (pairs : List (String × String))
    (hGcl : ∀ g ∈ G, g.new_ml_key.isSome = true)
    (hGnodup : (G.map GRow.img_frame).Nodup)
    (hpnodup : (pairs.map Prod.snd).Nodup) :
    j3_cp G (scanned_rows (keep_pairs G pairs ++ moved_pairs G pairs)) =
      (cp_rows G pairs).map
        fun g => (⟨g.img_frame, g.new_ml_key, none, some g.img_src⟩ : J3Row) := by
  unfold j3_cp mkJ3 cp_rows
  rw [j2_filtered_scanned_dm G pairs hGcl hGnodup hpnodup]
  by_cases hm : (missing_rows G pairs).length = 0
  · have hm0 : missing_rows G pairs = [] := List.eq_nil_of_length_eq_zero hm
    rw [hm0]
    rw [if_neg (by simp)]
    rw [if_pos (by simp : (([] : List GRow)).length = 0)]
    rw [List.filter_map]
    refine congrArg _ (List.filter_congr ?_)
    intro g _
    simp [Function.comp]
  · rw [if_pos (by
      rw [List.length_map]
      exact Nat.pos_of_ne_zero hm), if_neg hm]
    rw [List.map_map]
    have hmap : ((missing_rows G pairs).map
        ((fun j : J2Row => match G.find? (fun g =>
            g.img_frame == j.img_frame && g.new_ml_key == j.new_ml_key) with
          | some g => (⟨j.img_frame, j.new_ml_key, j.ml_key, some g.img_src⟩ : J3Row)
          | none => (⟨j.img_frame, j.new_ml_key, j.ml_key, none⟩ : J3Row)) ∘
          fun g => (⟨g.img_frame, g.new_ml_key, none⟩ : J2Row))) =
        (missing_rows G pairs).map
          fun g => (⟨g.img_frame, g.new_ml_key, none, some g.img_src⟩ : J3Row) := by
      apply List.map_congr_left
      intro g hg
      simp only [Function.comp]
      rw [find?_G_frame_new hGnodup (List.mem_filter.mp hg).1]
    rw [hmap]
    apply List.filter_eq_self.mpr
    intro r hr
    obtain ⟨g, hg, rfl⟩ := List.mem_map.mp hr
    have h2 := (List.mem_filter.mp hg).2
    rw [Bool.and_eq_true] at h2
    show (g.new_ml_key.isSome && true) = true
    rw [h2.1]
    rfl

theorem copy_phase_scanned_dm (G : List GRow) (pairs : List (String × String))
    (hGcl : ∀ g ∈ G, g.new_ml_key.isSome = true)
    (hGnodup : (G.map GRow.img_frame).Nodup)
    (hpnodup : (pairs.map Prod.snd).Nodup) :
    copy_phase_ops G (scanned_rows (keep_pairs G pairs ++ moved_pairs G pairs)) =
      (cp_rows G pairs).map fun g => S3Op.copyOp g.img_src
        (render_key (g.new_ml_key.getD "") g.img_frame) := by
  unfold copy_phase_ops
  have hcp := j3_cp_scanned_dm G pairs hGcl hGnodup hpnodup
  split
  · next hpos =>
    unfold cp_src_urls cp_dst_keys
    rw [hcp, List.map_map, List.map_map, List.zipWith_map, List.zipWith_same]
    apply List.map_congr_left
    intro g _
    rfl
  · next hpos =>
    have h0 : (cp_rows G pairs) = [] := by
      rcases List.eq_nil_or_concat (cp_rows G pairs) with h | ⟨l, a, h⟩
      · exact h
      · exfalso
        apply hpos
        rw [hcp, h]
        simp
    rw [h0]
    rfl

theorem cp_rows_classful (G : List GRow) (pairs : List (String × String)) :
    ∀ g ∈ cp_rows G pairs, g.new_ml_key.isSome = true := by
  intro g hg
  unfold cp_rows at hg
  split at hg
  · exact (List.mem_filter.mp hg).2
  · have h2 := (List.mem_filter.mp hg).2
    rw [Bool.and_eq_true] at h2
    exact h2.1

theorem cp_rows_mem (G : List GRow) (pairs : List (String × String)) :
    ∀ g ∈ cp_rows G pairs, g ∈ G := by
  intro g hg
  unfold cp_rows at hg
  split at hg
  · exact (List.mem_filter.mp hg).1
  · exact (List.mem_filter.mp hg).1

set_option maxHeartbeats 1600000 in
/-- Applying the copy phase to the post-move store yields the final
state: the missing desired pairs are created, and the fallback re-copies
land on already-present keys. -/
theorem store_after_cp (split : String) (G : List GRow)
    (pairs : List (String × String))
    (hGcl : ∀ g ∈ G, g.new_ml_key.isSome = true)
    (hGwf : ∀ g ∈ G, ∀ m, g.new_ml_key = some m → MLKeyWF m)
    (hGfr : ∀ g ∈ G, FrameWF split g.img_frame)
    (hGnodup : (G.map GRow.img_frame).Nodup)
    (hpwf : ∀ p ∈ pairs, MLKeyWF p.1 ∧ FrameWF split p.2)
    (hpnodup : (pairs.map Prod.snd).Nodup) :
    applyOps ((keep_pairs G pairs ++ moved_pairs G pairs).map
        fun p => render_key p.1 p.2)
      (copy_phase_ops G
        (scanned_rows (keep_pairs G pairs ++ moved_pairs G pairs))) =
      (run1_pairs G pairs).map fun p => render_key p.1 p.2 := by
  rw [copy_phase_scanned_dm G pairs hGcl hGnodup hpnodup]
  have hdmwf := dm_pairs_wf split G pairs hGwf hpwf
  unfold run1_pairs missing_pairs
  by_cases hm : (missing_rows G pairs).length = 0
  · have hm0 : missing_rows G pairs = [] := List.eq_nil_of_length_eq_zero hm
    have hcp : cp_rows G pairs = G.filter fun g => g.new_ml_key.isSome := by
      unfold cp_rows
      rw [if_pos hm]
    rw [hcp, hm0]
    have hpresent := applyOps_copies_present
      (fun g : GRow => g.img_src)
      (fun g : GRow => render_key (g.new_ml_key.getD "") g.img_frame)
      (G.filter fun g => g.new_ml_key.isSome)
      ((keep_pairs G pairs ++ moved_pairs G pairs).map
        fun p => render_key p.1 p.2)
      (by
        intro g hg
        have hgG := (List.mem_filter.mp hg).1
        have hgsome := (List.mem_filter.mp hg).2
        obtain ⟨n, hn⟩ := Option.isSome_iff_exists.mp hgsome
        -- the frame of g is stored: otherwise g would be a missing row
        have hfrp : g.img_frame ∈ pairs.map Prod.snd := by
          by_contra hfrp
          have : g ∈ missing_rows G pairs := by
            apply List.mem_filter.mpr
            refine ⟨hgG, ?_⟩
            rw [Bool.and_eq_true]
            exact ⟨hgsome, by
              rw [contains_eq_false_of_not_mem hfrp]
              rfl⟩
          rw [hm0] at this
          exact absurd this (by simp)
        obtain ⟨q, hq, hq2⟩ := List.mem_map.mp hfrp
        have hdq : desired_key G q.2 = some n := by
          rw [hq2, desired_key_of_mem hGnodup hgG, hn]
        -- the stored pair for that frame is (n, frame)
        have hpair : ((g.new_ml_key).getD "", g.img_frame) ∈
            keep_pairs G pairs ++ moved_pairs G pairs := by
          rw [hn, Option.getD_some]
          cases hb : (some q.1 == desired_key G q.2) with
          | true =>
            have hq1 : q.1 = n := by
              have h3 := beq_iff_eq.mp hb
              rw [hdq] at h3
              exact Option.some.inj h3
            have hqk : q ∈ keep_pairs G pairs := List.mem_filter.mpr ⟨hq, hb⟩
            refine List.mem_append.mpr (Or.inl ?_)
            have hqe : (n, g.img_frame) = q := by
              rw [← hq1, ← hq2]
            rw [hqe]
            exact hqk
          | false =>
            have hqm : q ∈ move_pairs G pairs := by
              refine List.mem_filter.mpr ⟨hq, ?_⟩
              rw [hdq] at hb
              rw [hdq, hb]
              rfl
            refine List.mem_append.mpr (Or.inr ?_)
            have : (n, g.img_frame) = ((desired_key G q.2).getD "", q.2) := by
              rw [hdq, hq2, Option.getD_some]
            rw [this]
            exact List.mem_map_of_mem _ hqm
        exact List.mem_map_of_mem (fun p => render_key p.1 p.2) hpair)
    rw [hpresent, List.map_nil, List.append_nil]
  · have hcp : cp_rows G pairs = missing_rows G pairs := by
      unfold cp_rows
      rw [if_neg hm]
    rw [hcp]
    have hmisswf : ∀ g ∈ missing_rows G pairs,
        MLKeyWF (g.new_ml_key.getD "") ∧ FrameWF split g.img_frame := by
      intro g hg
      have hgG := (List.mem_filter.mp hg).1
      have h2 := (List.mem_filter.mp hg).2
      rw [Bool.and_eq_true] at h2
      obtain ⟨n, hn⟩ := Option.isSome_iff_exists.mp h2.1
      rw [hn, Option.getD_some]
      exact ⟨hGwf g hgG n hn, hGfr g hgG⟩
    have hnew := applyOps_copies_new
      (fun g : GRow => g.img_src)
      (fun g : GRow => render_key (g.new_ml_key.getD "") g.img_frame)
      (missing_rows G pairs)
      ((keep_pairs G pairs ++ moved_pairs G pairs).map
        fun p => render_key p.1 p.2)
      (by
        intro g hg hmem
        have h2 := (List.mem_filter.mp hg).2
        rw [Bool.and_eq_true] at h2
        have hiff := mem_render_map split
          (keep_pairs G pairs ++ moved_pairs G pairs)
          ((g.new_ml_key.getD ""), g.img_frame)
          (dm_pairs_wf split G pairs hGwf hpwf)
          (hmisswf g hg).1 (hmisswf g hg).2
        have hmem2 := hiff.mp hmem
        have hfr := dm_pairs_frames_sub G pairs _ hmem2
        have hcont : (pairs.map Prod.snd).contains g.img_frame = true :=
          List.elem_iff.mpr hfr
        rw [hcont] at h2
        simpa using h2.2)
      (by
        have hmnodup : (missing_rows G pairs).Nodup :=
          List.Nodup.sublist (List.filter_sublist G)
            (List.Nodup.of_map GRow.img_frame hGnodup)
        refine (List.nodup_map_iff_inj_on hmnodup).mpr ?_
        intro x hx y hy he
        have h2 := (render_key_inj (hmisswf x hx).1 (hmisswf x hx).2.sepFree
          (hmisswf y hy).1 (hmisswf y hy).2.sepFree he).2
        exact List.inj_on_of_nodup_map hGnodup
          (List.mem_filter.mp hx).1 (List.mem_filter.mp hy).1 h2)
    simp only at hnew ⊢
    rw [hnew]
    simp [List.map_append, List.map_map]

/-- One no-failure run over a store rendered from well-formed pairs
succeeds and leaves the store rendered from `run1_pairs`. -/
theorem run_episode_rendered (episode_id split : String) (G : List GRow)
    (pairs : List (String × String))
    (hGcl : ∀ g ∈ G, g.new_ml_key.isSome = true)
    (hGwf : ∀ g ∈ G, ∀ m, g.new_ml_key = some m → MLKeyWF m)
    (hGfr : ∀ g ∈ G, FrameWF split g.img_frame)
    (hGnodup : (G.map GRow.img_frame).Nodup)
    (hpwf : ∀ p ∈ pairs, MLKeyWF p.1 ∧ FrameWF split p.2)
    (hpnodup : (pairs.map Prod.snd).Nodup)
    (hG0 : ¬ G.length = 0) :
    run_episode episode_id split G (pairs.map fun p => render_key p.1 p.2) =
      some ((run1_pairs G pairs).map fun p => render_key p.1 p.2) := by
  unfold run_episode
  rw [scanC_rendered episode_id split pairs hpwf]
  simp only [Option.some_bind]
  rw [if_neg hG0]
  have hsc1 : (pairs.map fun p => (⟨p.2, some p.1⟩ : CRow)) =
      scanned_rows pairs := rfl
  rw [hsc1]
  rw [store_after_dm split G pairs hGwf hpwf hpnodup]
  rw [scanC_rendered episode_id split
    (keep_pairs G pairs ++ moved_pairs G pairs)
    (dm_pairs_wf split G pairs hGwf hpwf)]
  simp only [Option.some_bind]
  have hsc2 : ((keep_pairs G pairs ++ moved_pairs G pairs).map
      fun p => (⟨p.2, some p.1⟩ : CRow)) =
      scanned_rows (keep_pairs G pairs ++ moved_pairs G pairs) := rfl
  rw [hsc2]
  rw [store_after_cp split G pairs hGcl hGwf hGfr hGnodup hpwf hpnodup]

/-! ### The state after one run is converged -/

theorem run1_pairs_desired (G : List GRow) (pairs : List (String × String))
    (hGnodup : (G.map GRow.img_frame).Nodup) :
    ∀ p ∈ run1_pairs G pairs, desired_key G p.2 = some p.1 := by
  intro p hp
  unfold run1_pairs at hp
  rcases List.mem_append.mp hp with hp | hp
  · exact dm_pairs_desired G pairs p hp
  · unfold missing_pairs at hp
    obtain ⟨g, hg, rfl⟩ := List.mem_map.mp hp
    have hgG := (List.mem_filter.mp hg).1
    have h2 := (List.mem_filter.mp hg).2
    rw [Bool.and_eq_true] at h2
    obtain ⟨n, hn⟩ := Option.isSome_iff_exists.mp h2.1
    show desired_key G g.img_frame = some (g.new_ml_key.getD "")
    rw [desired_key_of_mem hGnodup hgG, hn, Option.getD_some]

theorem run1_pairs_wf (split : String) (G : List GRow)
    (pairs : List (String × String))
    (hGwf : ∀ g ∈ G, ∀ m, g.new_ml_key = some m → MLKeyWF m)
    (hGfr : ∀ g ∈ G, FrameWF split g.img_frame)
    (hpwf : ∀ p ∈ pairs, MLKeyWF p.1 ∧ FrameWF split p.2) :
    ∀ p ∈ run1_pairs G pairs, MLKeyWF p.1 ∧ FrameWF split p.2 := by
  intro p hp
  unfold run1_pairs at hp
  rcases List.mem_append.mp hp with hp | hp
  · exact dm_pairs_wf split G pairs hGwf hpwf p hp
  · unfold missing_pairs at hp
    obtain ⟨g, hg, rfl⟩ := List.mem_map.mp hp
    have hgG := (List.mem_filter.mp hg).1
    have h2 := (List.mem_filter.mp hg).2
    rw [Bool.and_eq_true] at h2
    obtain ⟨n, hn⟩ := Option.isSome_iff_exists.mp h2.1
    show MLKeyWF (g.new_ml_key.getD "") ∧ FrameWF split g.img_frame
    rw [hn, Option.getD_some]
    exact ⟨hGwf g hgG n hn, hGfr g hgG⟩

theorem run1_pairs_frames_nodup (G : List GRow)
    (pairs : List (String × String))
    (hGnodup : (G.map GRow.img_frame).Nodup)
    (hpnodup : (pairs.map Prod.snd).Nodup) :
    ((run1_pairs G pairs).map Prod.snd).Nodup := by
  unfold run1_pairs
  rw [List.map_append, List.nodup_append]
  refine ⟨dm_pairs_frames_nodup G pairs hpnodup, ?_, ?_⟩
  · unfold missing_pairs
    rw [List.map_map]
    have hmm : ((missing_rows G pairs).map
        (Prod.snd ∘ fun g : GRow => (g.new_ml_key.getD "", g.img_frame))) =
        (missing_rows G pairs).map GRow.img_frame := by
      apply List.map_congr_left
      intro g _
      rfl
    rw [hmm]
    exact List.Nodup.sublist
      (List.Sublist.map _ (List.filter_sublist G)) hGnodup
  · rw [List.disjoint_left]
    intro fr hfr1 hfr2
    have hfrp : fr ∈ pairs.map Prod.snd := by
      obtain ⟨q, hq, rfl⟩ := List.mem_map.mp hfr1
      exact dm_pairs_frames_sub G pairs q hq
    unfold missing_pairs at hfr2
    rw [List.map_map] at hfr2
    obtain ⟨g, hg, he⟩ := List.mem_map.mp hfr2
    have h2 := (List.mem_filter.mp hg).2
    rw [Bool.and_eq_true] at h2
    have hcont : (pairs.map Prod.snd).contains g.img_frame = true :=
      List.elem_iff.mpr (by
        rw [show g.img_frame = fr from he]
        exact hfrp)
    rw [hcont] at h2
    simpa using h2.2

/-! ### A converged scan produces no deletes and no moves -/

theorem keep_pairs_converged (G : List GRow) (l : List (String × String))
    (hconv : ∀ p ∈ l, desired_key G p.2 = some p.1) :
    keep_pairs G l = l := by
  apply List.filter_eq_self.mpr
  intro p hp
  rw [hconv p hp]
  simp

theorem move_pairs_converged (G : List GRow) (l : List (String × String))
    (hconv : ∀ p ∈ l, desired_key G p.2 = some p.1) :
    move_pairs G l = [] := by
  apply List.filter_eq_nil.mpr
  intro p hp
  rw [hconv p hp]
  simp

theorem moved_pairs_converged (G : List GRow) (l : List (String × String))
    (hconv : ∀ p ∈ l, desired_key G p.2 = some p.1) :
    moved_pairs G l = [] := by
  unfold moved_pairs
  rw [move_pairs_converged G l hconv]
  rfl

theorem dm_pairs_converged (G : List GRow) (l : List (String × String))
    (hconv : ∀ p ∈ l, desired_key G p.2 = some p.1) :
    keep_pairs G l ++ moved_pairs G l = l := by
  rw [keep_pairs_converged G l hconv, moved_pairs_converged G l hconv,
    List.append_nil]

theorem j1_del_converged (G : List GRow) (l : List (String × String))
    (hconv : ∀ p ∈ l, desired_key G p.2 = some p.1) :
    j1_del G (scanned_rows l) = [] := by
  by_cases hl : l = []
  · subst hl
    apply List.filter_eq_nil.mpr
    intro r hr
    have := mem_mkJ1_empty_scan (mem_j1_filtered_mkJ1 hr)
    simp [this]
  · rw [j1_del_scanned G l hl]
    have h0 : (l.filter fun p => (desired_key G p.2).isNone) = [] := by
      apply List.filter_eq_nil.mpr
      intro p hp
      rw [hconv p hp]
      simp
    rw [h0]
    rfl

theorem j1_mv_converged (G : List GRow) (l : List (String × String))
    (hlwf : ∀ p ∈ l, MLKeyWF p.1)
    (hconv : ∀ p ∈ l, desired_key G p.2 = some p.1) :
    j1_mv G (scanned_rows l) = [] := by
  by_cases hl : l = []
  · subst hl
    apply List.filter_eq_nil.mpr
    intro r hr
    have := mem_mkJ1_empty_scan
      (mem_j1_filtered_mkJ1 (mem_j1_after_del_filtered hr))
    simp [this]
  · rw [j1_mv_scanned G l hl hlwf, move_pairs_converged G l hconv]
    rfl

theorem delete_phase_converged (G : List GRow) (l : List (String × String))
    (hconv : ∀ p ∈ l, desired_key G p.2 = some p.1) :
    delete_phase_ops G (scanned_rows l) = [] := by
  unfold delete_phase_ops
  rw [j1_del_converged G l hconv]
  rw [if_neg (by simp)]

theorem move_phase_converged (G : List GRow) (l : List (String × String))
    (hlwf : ∀ p ∈ l, MLKeyWF p.1)
    (hconv : ∀ p ∈ l, desired_key G p.2 = some p.1) :
    move_phase_ops G (scanned_rows l) = [] := by
  unfold move_phase_ops
  rw [j1_mv_converged G l hlwf hconv]
  rw [if_neg (by simp)]

/-- After one run no classful desired row is missing from the store. -/
theorem missing_rows_run1_nil (G : List GRow)
    (pairs : List (String × String))
    (hGnodup : (G.map GRow.img_frame).Nodup) :
    missing_rows G (run1_pairs G pairs) = [] := by
  apply List.filter_eq_nil.mpr
  intro g hg hpred
  rw [Bool.and_eq_true] at hpred
  obtain ⟨hsome, hnc⟩ := hpred
  have hfr : g.img_frame ∈ (run1_pairs G pairs).map Prod.snd := by
    by_cases hp : g.img_frame ∈ pairs.map Prod.snd
    · obtain ⟨q, hq, hq2⟩ := List.mem_map.mp hp
      have hqd : (desired_key G q.2).isSome = true := by
        rw [hq2, desired_key_of_mem hGnodup hg]
        exact hsome
      have hmem := mem_dm_frames_of_desired G pairs q hq hqd
      rw [hq2] at hmem
      unfold run1_pairs
      rw [List.map_append]
      exact List.mem_append.mpr (Or.inl hmem)
    · have hgm : g ∈ missing_rows G pairs := by
        apply List.mem_filter.mpr
        refine ⟨hg, ?_⟩
        rw [Bool.and_eq_true]
        refine ⟨hsome, ?_⟩
        rw [contains_eq_false_of_not_mem hp]
        rfl
      unfold run1_pairs
      rw [List.map_append]
      refine List.mem_append.mpr (Or.inr ?_)
      unfold missing_pairs
      rw [List.map_map]
      exact List.mem_map_of_mem _ hgm
  have hcont : ((run1_pairs G pairs).map Prod.snd).contains g.img_frame = true :=
    List.elem_iff.mpr hfr
  rw [hcont] at hnc
  simp at hnc

set_option maxHeartbeats 1600000 in
/-- C2 (amended): with a desired snapshot `G` all of whose rows carry a
class, held fixed across both runs (no provider re-randomization), no
failures and no external mutation, the second run over the state left by
the first issues no deletes and no moves - but it is not all-NoOp: the
pandas `ne` of line 408 drops every converged classful row, `J2` comes
out empty, and the lines 422-425 fallback re-copies every desired row,
so the second plan is exactly one copy per row of `G`.  (For a snapshot
with class-less rows the fallback is not taken: `ne` keeps their
null-vs-null rows in `J2`.) -/
theorem second_run_plan_reissues_all_copies (episode_id split : String)
    (G : List GRow) (pairs : List (String × String))
    (hGcl : ∀ g ∈ G, g.new_ml_key.isSome = true)
    (hGwf : ∀ g ∈ G, ∀ m, g.new_ml_key = some m → MLKeyWF m)
    (hGfr : ∀ g ∈ G, FrameWF split g.img_frame)
    (hGnodup : (G.map GRow.img_frame).Nodup)
    (hpwf : ∀ p ∈ pairs, MLKeyWF p.1 ∧ FrameWF split p.2)
    (hpnodup : (pairs.map Prod.snd).Nodup) :
    second_run_plan episode_id split G (pairs.map fun p => render_key p.1 p.2) =
      some ((G.filter fun g => g.new_ml_key.isSome).map fun g =>
        S3Op.copyOp g.img_src (render_key (g.new_ml_key.getD "") g.img_frame)) ∧
    ∀ k, S3Op.deleteOp k ∉
      (G.filter fun g => g.new_ml_key.isSome).map fun g =>
        S3Op.copyOp g.img_src (render_key (g.new_ml_key.getD "") g.img_frame) := by
  constructor
  · by_cases hG0 : G.length = 0
    · have hGnil : G = [] := List.eq_nil_of_length_eq_zero hG0
      subst hGnil
      unfold second_run_plan run_episode
      rw [scanC_rendered episode_id split pairs hpwf]
      simp only [Option.some_bind]
      rw [if_pos (show ([] : List GRow).length = 0 from rfl)]
      simp only [Option.some_bind]
      rw [scanC_rendered episode_id split pairs hpwf]
      simp only [Option.some_bind]
      rw [if_pos (show ([] : List GRow).length = 0 from rfl)]
      rfl
    · have hconv1 := run1_pairs_desired G pairs hGnodup
      have hr1wf := run1_pairs_wf split G pairs hGwf hGfr hpwf
      have hr1nodup := run1_pairs_frames_nodup G pairs hGnodup hpnodup
      have hr1ml : ∀ p ∈ run1_pairs G pairs, MLKeyWF p.1 :=
        fun p hp => (hr1wf p hp).1
      unfold second_run_plan
      rw [run_episode_rendered episode_id split G pairs hGcl hGwf hGfr hGnodup
        hpwf hpnodup hG0]
      simp only [Option.some_bind]
      rw [scanC_rendered episode_id split (run1_pairs G pairs) hr1wf]
      simp only [Option.some_bind]
      rw [if_neg hG0]
      have hsc : ((run1_pairs G pairs).map fun p => (⟨p.2, some p.1⟩ : CRow)) =
          scanned_rows (run1_pairs G pairs) := rfl
      rw [hsc]
      rw [delete_phase_converged G (run1_pairs G pairs) hconv1,
        move_phase_converged G (run1_pairs G pairs) hr1ml hconv1]
      have happ : applyOps
          ((run1_pairs G pairs).map fun p => render_key p.1 p.2)
          (([] : List S3Op) ++ []) =
          (run1_pairs G pairs).map fun p => render_key p.1 p.2 := rfl
      rw [happ]
      rw [scanC_rendered episode_id split (run1_pairs G pairs) hr1wf]
      simp only [Option.some_bind]
      rw [hsc]
      unfold episode_ops
      rw [if_neg hG0]
      rw [delete_phase_converged G (run1_pairs G pairs) hconv1,
        move_phase_converged G (run1_pairs G pairs) hr1ml hconv1]
      have hdmr : keep_pairs G (run1_pairs G pairs) ++
          moved_pairs G (run1_pairs G pairs) = run1_pairs G pairs :=
        dm_pairs_converged G (run1_pairs G pairs) hconv1
      have hcp2 := copy_phase_scanned_dm G (run1_pairs G pairs) hGcl hGnodup
        hr1nodup
      rw [hdmr] at hcp2
      rw [hcp2]
      have hcpr : cp_rows G (run1_pairs G pairs) =
          G.filter fun g => g.new_ml_key.isSome := by
        unfold cp_rows
        rw [missing_rows_run1_nil G pairs hGnodup]
        rw [if_pos (show ([] : List GRow).length = 0 from rfl)]
      rw [hcpr]
      rw [List.nil_append, List.nil_append]
  · intro k hk
    obtain ⟨g, -, he⟩ := List.mem_map.mp hk
    exact S3Op.noConfusion he

/-- Witness for the amended C2 theorem: one classful desired frame,
empty initial store; the second plan is exactly the one re-copy. -/
theorem second_run_plan_reissues_all_copies_witness :
    second_run_plan "S01E01" "S01_E01"
        [⟨"TT_S01_E01_FRM-00-00-08-11", "srcurl", some "train/Common"⟩]
        (([] : List (String × String)).map fun p => render_key p.1 p.2) =
      some ((([⟨"TT_S01_E01_FRM-00-00-08-11", "srcurl", some "train/Common"⟩] :
            List GRow).filter fun g => g.new_ml_key.isSome).map fun g =>
          S3Op.copyOp g.img_src
            (render_key (g.new_ml_key.getD "") g.img_frame)) ∧
    ∀ k, S3Op.deleteOp k ∉
      (([⟨"TT_S01_E01_FRM-00-00-08-11", "srcurl", some "train/Common"⟩] :
          List GRow).filter fun g => g.new_ml_key.isSome).map fun g =>
        S3Op.copyOp g.img_src (render_key (g.new_ml_key.getD "") g.img_frame) :=
  second_run_plan_reissues_all_copies "S01E01" "S01_E01"
    [⟨"TT_S01_E01_FRM-00-00-08-11", "srcurl", some "train/Common"⟩] []
    (by
      intro g hg
      rw [List.mem_singleton] at hg
      subst hg
      rfl)
    (by
      intro g hg m hm
      rw [List.mem_singleton] at hg
      subst hg
      have hm2 : m = "train/Common" := (Option.some.inj hm).symm
      subst hm2
      exact ⟨"train", "Common", by decide, by decide, by decide⟩)
    (by
      intro g hg
      rw [List.mem_singleton] at hg
      subst hg
      exact ⟨by decide, "00-00-08-11", by decide, by decide⟩)
    (by decide)
    (by
      intro p hp
      exact absurd hp (List.not_mem_nil p))
    List.nodup_nil

end CreateManifests
